import Mathlib

/-!
Shallow embedding of `src/nnsvs/postfilters.py` (learned post-filters for
synthetic-speech acoustic features) over exact rational arithmetic.

Tensors are nested lists: a `(B, T, C)` tensor is a `Ten3`
(batch of time-lists of channel rows), a `(B, Ch, T, F)` tensor is a `Ten4`.
Convolutions, padding, slicing and concatenation are translated from the
PyTorch calls in the source; per-call Gaussian noise is modelled by an
explicit draw stream `rng : ℕ → ℚ` supplied to each forward pass.
Fallible torch operations (channel-count mismatches, configuration asserts)
return `Except String`.
-/

abbrev Vec := List ℚ
abbrev Mat := List Vec
abbrev Ten3 := List Mat
abbrev Ten4 := List Ten3

/-- ReLU rectification. -/
def relu (x : ℚ) : ℚ := max x 0

def reluM (m : Mat) : Mat := m.map (fun r => r.map relu)

def relu3 (x : Ten3) : Ten3 := x.map reluM

def relu4 (x : Ten4) : Ten4 := x.map relu3

/-- Element read with zero padding outside the valid range
(torch `padding_mode="zeros"`). -/
def vget (v : Vec) (i : ℤ) : ℚ :=
  if 0 ≤ i ∧ i < (v.length : ℤ) then v.getD i.toNat 0 else 0

/-- Padding mode of a convolution layer. -/
inductive PadMode
  | zeros
  | reflect
deriving DecidableEq, Repr

/-- Reflected index for torch reflection padding (the edge sample is not
repeated: index `-1 ↦ 1`, index `n ↦ n-2`). -/
def reflIdx (n : ℕ) (i : ℤ) : ℤ :=
  if i < 0 then -i else if (n : ℤ) ≤ i then 2 * ((n : ℤ) - 1) - i else i

def vgetP (mode : PadMode) (v : Vec) (i : ℤ) : ℚ :=
  match mode with
  | .zeros => vget v i
  | .reflect => vget v (reflIdx v.length i)

/-- Row read of a matrix at a (possibly out-of-range) time index,
per padding mode. -/
def mgetP (mode : PadMode) (m : Mat) (t : ℤ) : Vec :=
  match mode with
  | .zeros => if 0 ≤ t ∧ t < (m.length : ℤ) then m.getD t.toNat [] else []
  | .reflect => m.getD (reflIdx m.length t).toNat []

/-- Pixel read of a `T × F` plane with the given padding mode on both axes. -/
def pget (mode : PadMode) (c : Mat) (t f : ℤ) : ℚ :=
  vgetP mode (mgetP mode c t) f

def dot (a b : Vec) : ℚ := ((a.zip b).map (fun p => p.1 * p.2)).sum

/-- One output sample of a 1-d convolution: `w` is one output channel's
kernel stack (`Cin × K`), `x` the input (`Cin × T`), `p` the padding. -/
def conv1dVal (mode : PadMode) (w : Mat) (x : Mat) (p : ℕ) (t : ℕ) : ℚ :=
  (((w.zip x).map (fun wx =>
    ((List.range wx.1.length).map (fun (k : ℕ) =>
      wx.1.getD k 0 * vgetP mode wx.2 ((t : ℤ) + (k : ℤ) - (p : ℤ)))).sum)).sum)

/-- `nn.Conv1d` on one batch item: weight `w : Cout × Cin × K`, bias `b`,
symmetric padding `p`; input `Cin × T`, output `Cout × (T + 2p + 1 - K)`. -/
def conv1dT (mode : PadMode) (w : Ten3) (b : Vec) (p : ℕ) (x : Mat) : Mat :=
  (List.range w.length).map (fun co =>
    (List.range ((x.headD []).length + 2 * p + 1 - ((w.headD []).headD []).length)).map
      (fun t => b.getD co 0 + conv1dVal mode (w.getD co []) x p t))

/-- `nn.Conv1d` mapped over the batch axis of a `(B, Cin, T)` tensor. -/
def conv1dU (mode : PadMode) (w : Ten3) (b : Vec) (p : ℕ) (x : Ten3) : Ten3 :=
  x.map (conv1dT mode w b p)

/-- Batched `nn.Conv1d` on a `(B, Cin, T)` tensor, with torch's runtime
check that the input channel count matches the layer's `in_channels`. -/
def conv1dB (mode : PadMode) (w : Ten3) (b : Vec) (p : ℕ) (x : Ten3) :
    Except String Ten3 :=
  if x.all (fun xb => xb.length = (w.headD []).length) then
    .ok (conv1dU mode w b p x)
  else .error "Conv1d: channel mismatch"

/-- One output sample of a 2-d convolution: `w` is one output channel's
kernel stack (`Cin × KT × KF`), `img` the input (`Cin × T × F`). -/
def conv2dVal (mode : PadMode) (w : Ten3) (img : Ten3) (pt pf : ℕ) (t f : ℕ) : ℚ :=
  ((w.zip img).map (fun wc =>
    ((List.range wc.1.length).map (fun (dt : ℕ) =>
      ((List.range ((wc.1.headD []).length)).map (fun (df : ℕ) =>
        (wc.1.getD dt []).getD df 0 *
          pget mode wc.2 ((t : ℤ) + (dt : ℤ) - (pt : ℤ))
            ((f : ℤ) + (df : ℤ) - (pf : ℤ)))).sum)).sum)).sum

/-- `nn.Conv2d` on one batch item: weight `w : Cout × Cin × KT × KF`,
padding `(pt, pf)`; input `Cin × T × F`,
output `Cout × (T + 2pt + 1 - KT) × (F + 2pf + 1 - KF)`. -/
def conv2dT (mode : PadMode) (w : Ten4) (b : Vec) (pt pf : ℕ) (img : Ten3) : Ten3 :=
  (List.range w.length).map (fun co =>
    (List.range ((img.headD []).length + 2 * pt + 1 - ((w.headD []).headD []).length)).map
      (fun t =>
        (List.range (((img.headD []).headD []).length + 2 * pf + 1 -
            (((w.headD []).headD []).headD []).length)).map
          (fun f => b.getD co 0 + conv2dVal mode (w.getD co []) img pt pf t f)))

/-- `nn.Conv2d` mapped over the batch axis of a `(B, Cin, T, F)` tensor. -/
def conv2dU (mode : PadMode) (w : Ten4) (b : Vec) (pt pf : ℕ) (x : Ten4) : Ten4 :=
  x.map (conv2dT mode w b pt pf)

/-- Batched `nn.Conv2d` on a `(B, Cin, T, F)` tensor with the channel check. -/
def conv2dB (mode : PadMode) (w : Ten4) (b : Vec) (pt pf : ℕ) (x : Ten4) :
    Except String Ten4 :=
  if x.all (fun img => img.length = (w.headD []).length) then
    .ok (conv2dU mode w b pt pf x)
  else .error "Conv2d: channel mismatch"

/-- `nn.Linear` applied to one row: `out j = b j + Σ_i w j i * x i`. -/
def linearRow (w : Mat) (b : Vec) (x : Vec) : Vec :=
  (List.range w.length).map (fun j => b.getD j 0 + dot (w.getD j []) x)

/-- `nn.Linear` applied along the last axis of a `(B, Ch, T, F)` tensor. -/
def linear4 (w : Mat) (b : Vec) (x : Ten4) : Ten4 :=
  x.map (fun i => i.map (fun m => m.map (linearRow w b)))

/-- `torch.cat(·, dim=1)` on `(B, C, T)` tensors (concatenate channels). -/
def catDim1 (a b : Ten3) : Ten3 := List.zipWith (· ++ ·) a b

/-- `torch.cat(·, dim=1)` on `(B, Ch, T, F)` tensors. -/
def cat4Dim1 (a b : Ten4) : Ten4 := List.zipWith (· ++ ·) a b

/-- `torch.cat(·, dim=-1)` on `(B, T, C)` tensors (concatenate features). -/
def catFeat (a b : Ten3) : Ten3 := List.zipWith (List.zipWith (· ++ ·)) a b

/-- Matrix transpose (reads the column count from the first row). -/
def mT (m : Mat) : Mat :=
  (List.range ((m.headD []).length)).map (fun j => m.map (fun r => r.getD j 0))

/-- `x.transpose(1, 2)` on a 3-axis tensor. -/
def transpose12 (x : Ten3) : Ten3 := x.map mT

/-- `x.unsqueeze(1)`: `(B, T, C) → (B, 1, T, C)`. -/
def unsq1 (x : Ten3) : Ten4 := x.map (fun m => [m])

/-- `x.squeeze(1)`: `(B, 1, T, C) → (B, T, C)`. -/
def sq1 (x : Ten4) : Ten3 := x.map (fun i => i.headD [])

def addM (a b : Mat) : Mat := List.zipWith (List.zipWith (· + ·)) a b

def add3 (a b : Ten3) : Ten3 := List.zipWith addM a b

def add4 (a b : Ten4) : Ten4 := List.zipWith add3 a b

def mulM (a b : Mat) : Mat := List.zipWith (List.zipWith (· * ·)) a b

/-- Broadcasting add of `(C, T) + (1, T)` (torch broadcast over dim 1),
falling back to the elementwise add when the channel counts agree. -/
def bAddM (x r : Mat) : Mat :=
  if r.length = 1 then x.map (fun row => List.zipWith (· + ·) row (r.headD []))
  else addM x r

/-- Broadcasting add of `(B, C, T) + (B, 1, T)`. -/
def bAdd3 (x r : Ten3) : Ten3 := List.zipWith bAddM x r

/-- `torch.randn(B, T, C) * s`, drawn from the explicit stream `rng`. -/
def randn3 (rng : ℕ → ℚ) (B T C : ℕ) (s : ℚ) : Ten3 :=
  (List.range B).map (fun b =>
    (List.range T).map (fun t =>
      (List.range C).map (fun c => rng ((b * T + t) * C + c) * s)))

/-- `torch.randn_like(x) * s` for a 3-axis tensor. -/
def randnLike3 (rng : ℕ → ℚ) (s : ℚ) (x : Ten3) : Ten3 :=
  x.enum.map (fun bm =>
    bm.2.enum.map (fun tr =>
      tr.2.enum.map (fun cv => rng ((bm.1 * bm.2.length + tr.1) * tr.2.length + cv.1) * s)))

/-- `torch.randn_like(x) * s` for a 4-axis tensor. -/
def randnLike4 (rng : ℕ → ℚ) (s : ℚ) (x : Ten4) : Ten4 :=
  x.enum.map (fun bi =>
    bi.2.enum.map (fun cm =>
      cm.2.enum.map (fun tr =>
        tr.2.enum.map (fun fv =>
          rng (((bi.1 * bi.2.length + cm.1) * cm.2.length + tr.1) * tr.2.length + fv.1) * s))))

/-- `torch.randn(B, C, T, F) * s` for the frame-wise 2-d noise draw. -/
def randn4 (rng : ℕ → ℚ) (B C T F : ℕ) (s : ℚ) : Ten4 :=
  (List.range B).map (fun b =>
    (List.range C).map (fun c =>
      (List.range T).map (fun t =>
        (List.range F).map (fun f => rng (((b * C + c) * T + t) * F + f) * s))))

/-- `x[:, :, :n]` on a `(B, T, C)` tensor (keep the first `n` channels). -/
def takeCh (x : Ten3) (n : ℕ) : Ten3 := x.map (fun m => m.map (List.take n))

/-- `x[:, :, n:]` on a `(B, T, C)` tensor (drop the first `n` channels). -/
def dropCh (x : Ten3) (n : ℕ) : Ten3 := x.map (fun m => m.map (List.drop n))

/-- `x[:, :, st:st+len]` on a `(B, T, C)` tensor. -/
def sliceCh (x : Ten3) (st len : ℕ) : Ten3 :=
  x.map (fun m => m.map (fun r => (r.drop st).take len))

/-- Rectangularity of a matrix: `T` rows, each of length `C`. -/
def RectM (m : Mat) (T C : ℕ) : Prop :=
  m.length = T ∧ ∀ r ∈ m, r.length = C

/-- Rectangularity of a 3-axis tensor. -/
def Rect3 (x : Ten3) (B T C : ℕ) : Prop :=
  x.length = B ∧ ∀ m ∈ x, RectM m T C

/-- Rectangularity of a 4-axis tensor. -/
def Rect4 (x : Ten4) (B Ch T F : ℕ) : Prop :=
  x.length = B ∧ ∀ i ∈ x, Rect3 i Ch T F

instance : DecidablePred (fun m => RectM m.1 m.2.1 m.2.2 : Mat × ℕ × ℕ → Prop) :=
  fun _ => by unfold RectM; infer_instance

instance RectM.dec (m : Mat) (T C : ℕ) : Decidable (RectM m T C) := by
  unfold RectM; infer_instance

instance Rect3.dec (x : Ten3) (B T C : ℕ) : Decidable (Rect3 x B T C) := by
  unfold Rect3; infer_instance

instance Rect4.dec (x : Ten4) (B Ch T F : ℕ) : Decidable (Rect4 x B Ch T F) := by
  unfold Rect4; infer_instance

/-!  ## `SimplifiedTADN` (postfilters.py lines 32-63)  -/

/-- Simplified temporal adaptive de-normalization for Gaussian noise.
`gw` is the `conv_gamma` depthwise weight (`C × 1 × kernel_size`, one kernel
per channel since `groups = C`), `gb` its bias.  `sigmoid` models
`torch.sigmoid` (the logistic squashing function); its defining property
used by the claims — a strict range inside `(0, 1)` — is carried as an
explicit hypothesis where needed. -/
structure SimplifiedTADN where
  gw : Ten3
  gb : Vec
  ks : ℕ
  sigmoid : ℚ → ℚ

/-- Depthwise (`groups = C`) `nn.Conv1d`: channel `ch` of the output is the
convolution of channel `ch` of the input with kernel `w ch 0`, zero padding
`p`.  Output time length `T + 2p + 1 - K`. -/
def dwConv (w : Ten3) (b : Vec) (p : ℕ) (c : Mat) : Mat :=
  (List.range w.length).map (fun ch =>
    (List.range ((c.headD []).length + 2 * p + 1 - ((w.headD []).headD []).length)).map
      (fun (t : ℕ) => b.getD ch 0 +
        ((List.range (((w.getD ch []).headD []).length)).map (fun (k : ℕ) =>
          ((w.getD ch []).headD []).getD k 0 *
            vget (c.getD ch []) ((t : ℤ) + (k : ℤ) - (p : ℤ)))).sum))

/-- `SimplifiedTADN.forward`: `z * torch.sigmoid(conv_gamma(c))` on
`(B, C, T)` inputs; fails when the channel count of `c` does not match the
depthwise convolution's channel count. -/
def SimplifiedTADN.forward (m : SimplifiedTADN) (z c : Ten3) : Except String Ten3 :=
  if c.all (fun cb => cb.length = m.gw.length) then
    .ok (List.zipWith (fun zb cb =>
      mulM zb ((dwConv m.gw m.gb ((m.ks - 1) / 2) cb).map (fun r => r.map m.sigmoid))) z c)
  else .error "Conv1d: channel mismatch"

/-!  ## `Conv2dPostFilter` (postfilters.py lines 66-193)  -/

inductive NoiseType
  | bin_wise
  | frame_wise
deriving DecidableEq, Repr

/-- Construction-time checks of `Conv2dPostFilter.__init__`:
`assert len(kernel_size) == 2`; when `use_tadn`, `assert in_dim is not None`
and `assert noise_type == "bin_wise"`; `frame_wise` builds
`nn.Linear(1, in_dim)` (a `None` `in_dim` is a TypeError there); an unknown
noise type is a ValueError.  Returns (tadn channel count if any, noise type). -/
def conv2dPFInit (in_dim : Option ℕ) (kernel_size : List ℕ)
    (use_noise use_tadn : Bool) (noise_type : String) :
    Except String (Option ℕ × NoiseType × Bool) := do
  if kernel_size.length = 2 then
    let tadnDim ← (match use_tadn, in_dim with
      | false, _ => Except.ok Option.none
      | true, Option.none => Except.error "in_dim must be provided"
      | true, some d =>
          if noise_type = "bin_wise" then Except.ok (some d)
          else Except.error "tadn only works for bin_wise")
    if noise_type = "frame_wise" then
      match in_dim with
      | Option.none => Except.error "TypeError: nn.Linear(1, None)"
      | some _ => pure (tadnDim, NoiseType.frame_wise, use_noise)
    else if noise_type = "bin_wise" then pure (tadnDim, NoiseType.bin_wise, use_noise)
    else Except.error ("Unknown noise type: " ++ noise_type)
  else Except.error "assert len(kernel_size) == 2"

/-- A constructed `Conv2dPostFilter`: flags plus the learned weights of the
four convolution stages (`w1 : C × (2 or 1) × kT × kF`,
`w2 : 2C × (C+1) × kT × kF`, `w3 : C × (2C+1) × kT × kF`,
`w4 : 1 × (C+1) × kT × kF`) and the frame-wise noise projection `fc`. -/
structure Conv2dPostFilter where
  use_noise : Bool
  noise_type : NoiseType
  residual : Bool
  scale : ℚ
  ksT : ℕ
  ksF : ℕ
  mode : PadMode
  tadn : Option SimplifiedTADN
  fcW : Mat
  fcB : Vec
  w1 : Ten4
  b1 : Vec
  w2 : Ten4
  b2 : Vec
  w3 : Ten4
  b3 : Vec
  w4 : Ten4
  b4 : Vec

/-- `Conv2dPostFilter.forward` (lines 145-193): unsqueeze to `(B, 1, T, C)`,
draw the per-call noise (bin-wise `randn_like`, or frame-wise
`randn(B,1,T,1)` projected by `fc`), optionally modulate it with the TADN,
then four convolution stages each fed the concatenation of the unmodified
input with the previous stage's output, with a final residual add. -/
def Conv2dPostFilter.forward (m : Conv2dPostFilter) (rng : ℕ → ℚ) (x : Ten3)
    (lengths : Option (List ℕ)) : Except String Ten3 := do
  let x4 := unsq1 x
  let pt := (m.ksT - 1) / 2
  let pf := (m.ksF - 1) / 2
  let z := match m.noise_type with
    | NoiseType.bin_wise => randnLike4 rng m.scale x4
    | NoiseType.frame_wise =>
        linear4 m.fcW m.fcB (randn4 rng x.length 1 (x.headD []).length 1 m.scale)
  let z ← if m.use_noise then
      match m.tadn with
      | some td => do
          let zt ← td.forward (transpose12 (sq1 z)) (transpose12 (sq1 x4))
          pure (unsq1 (transpose12 zt))
      | Option.none => pure z
    else pure z
  let x_syn := x4
  let y ← if m.use_noise then conv2dB m.mode m.w1 m.b1 pt pf (cat4Dim1 x_syn z)
          else conv2dB m.mode m.w1 m.b1 pt pf x_syn
  let y := relu4 y
  let y ← conv2dB m.mode m.w2 m.b2 pt pf (cat4Dim1 x_syn y)
  let y := relu4 y
  let y ← conv2dB m.mode m.w3 m.b3 pt pf (cat4Dim1 x_syn y)
  let y := relu4 y
  let residual ← conv2dB m.mode m.w4 m.b4 pt pf (cat4Dim1 x_syn y)
  let out := if m.residual then add4 x_syn residual else residual
  pure (sq1 out)

/-!  ## `Conv1dPostFilter` (postfilters.py lines 196-291)  -/

/-- Construction-time checks of `Conv1dPostFilter.__init__`: when
`use_tadn`, `assert in_dim is not None` and then `assert use_noise`.
Returns whether a TADN module was installed. -/
def conv1dPFInit (in_dim : Option ℕ) (channels kernel_size : ℕ)
    (use_noise use_tadn : Bool) : Except String Bool :=
  if use_tadn then
    match in_dim with
    | Option.none => Except.error "in_dim must be provided"
    | some _ => if use_noise then Except.ok true else Except.error "use_noise must be True"
  else Except.ok false

/-- A constructed `Conv1dPostFilter`: flags plus the learned weights of the
four 1-d convolution stages. -/
structure Conv1dPostFilter where
  use_noise : Bool
  scale : ℚ
  ks : ℕ
  mode : PadMode
  tadn : Option SimplifiedTADN
  w1 : Ten3
  b1 : Vec
  w2 : Ten3
  b2 : Vec
  w3 : Ten3
  b3 : Vec
  w4 : Ten3
  b4 : Vec

/-- `Conv1dPostFilter.forward` (lines 270-291): transpose to `(B, C, T)`,
optionally draw (and modulate) noise for stage 1, then four convolution
stages each fed the concatenation of the unmodified transposed input with
the previous stage's output (ReLU after stages 1-3), and return
`x + residual` transposed back. -/
def Conv1dPostFilter.forward (m : Conv1dPostFilter) (rng : ℕ → ℚ) (x : Ten3)
    (lengths : Option (List ℕ)) : Except String Ten3 := do
  let xT := transpose12 x
  let x_syn := xT
  let p := (m.ks - 1) / 2
  let y ← if m.use_noise then do
      let z := randnLike3 rng m.scale xT
      let z ← match m.tadn with
              | some td => td.forward z xT
              | Option.none => pure z
      conv1dB m.mode m.w1 m.b1 p (catDim1 x_syn z)
    else conv1dB m.mode m.w1 m.b1 p x_syn
  let y := relu3 y
  let y ← conv1dB m.mode m.w2 m.b2 p (catDim1 x_syn y)
  let y := relu3 y
  let y ← conv1dB m.mode m.w3 m.b3 p (catDim1 x_syn y)
  let y := relu3 y
  let residual ← conv1dB m.mode m.w4 m.b4 p (catDim1 x_syn y)
  let out := bAdd3 x_syn residual
  pure (transpose12 out)

/-!  ## `MultistreamPostFilter` (postfilters.py lines 294-377)  -/

/-- A per-stream post-filter as the stream orchestrator sees it: a function
of the stream tensor and the optional lengths vector. -/
abbrev StreamFilter := Ten3 → Option (List ℕ) → Ten3

/-- Helper of `splitStreams`: consecutive channel slices from `start`. -/
def splitFrom (x : Ten3) (start : ℕ) : List ℕ → List Ten3
  | [] => []
  | s :: rest => sliceCh x start s :: splitFrom x (start + s) rest

/-- Modelled from the spec: `split_streams` (imported from
`nnsvs.multistream`, which is not under `src/`) splits the channel axis of a
`(B, T, C)` tensor into consecutive streams of the given sizes, in order. -/
def splitStreams (x : Ten3) (sizes : List ℕ) : List Ten3 := splitFrom x 0 sizes

/-- The offset-aware filter application of `MultistreamPostFilter.forward`
(lines 347-365): keep the first `off` channels unchanged, filter the rest,
re-concatenate; with offset 0 filter the whole stream; with no filter
assigned pass the stream through. -/
def applyWithOffset (pf : Option StreamFilter) (off : ℕ) (s : Ten3)
    (lengths : Option (List ℕ)) : Ten3 :=
  match pf with
  | Option.none => s
  | some f =>
      if 0 < off then catFeat (takeCh s off) (f (dropCh s off) lengths)
      else f s lengths

/-- The log-F0 filter application of `MultistreamPostFilter.forward`
(lines 367-368): filter the whole stream when a filter is assigned, else
pass it through. -/
def applyLf0 (pf : Option StreamFilter) (s : Ten3) (lengths : Option (List ℕ)) : Ten3 :=
  match pf with
  | Option.none => s
  | some f => f s lengths

/-- A constructed `MultistreamPostFilter`. -/
structure MultistreamPostFilter where
  mgc_postfilter : Option StreamFilter
  bap_postfilter : Option StreamFilter
  lf0_postfilter : Option StreamFilter
  stream_sizes : List ℕ
  mgc_offset : ℕ
  bap_offset : ℕ

/-- `MultistreamPostFilter.forward` (lines 325-377): split into streams,
filter MGC/BAP (offset-aware) and log-F0, reassemble in order.  The
4-stream and 6-stream arms reassemble all streams; in the 5-stream arm the
source unpacking `mgc, lf0, vuv, bap, vuv = streams` binds the fifth stream
to `vuv` and the reassembly then references `vib`, which is never bound, so
the call raises `NameError` (modelled as an error value).  Any other stream
count is a ValueError. -/
def MultistreamPostFilter.forward (m : MultistreamPostFilter) (x : Ten3)
    (lengths : Option (List ℕ)) : Except String Ten3 :=
  match splitStreams x m.stream_sizes with
  | [mgc, lf0, vuv, bap] =>
      let mgc := applyWithOffset m.mgc_postfilter m.mgc_offset mgc lengths
      let bap := applyWithOffset m.bap_postfilter m.bap_offset bap lengths
      let lf0 := applyLf0 m.lf0_postfilter lf0 lengths
      .ok (catFeat (catFeat (catFeat mgc lf0) vuv) bap)
  | [_mgc, _lf0, _vuv0, _bap, _vuv] =>
      .error "NameError: name vib is not defined"
  | [mgc, lf0, vuv, bap, vib, vib_flags] =>
      let mgc := applyWithOffset m.mgc_postfilter m.mgc_offset mgc lengths
      let bap := applyWithOffset m.bap_postfilter m.bap_offset bap lengths
      let lf0 := applyLf0 m.lf0_postfilter lf0 lengths
      .ok (catFeat (catFeat (catFeat (catFeat (catFeat mgc lf0) vuv) bap) vib) vib_flags)
  | _ => .error "Invalid number of streams"

/-!  ## `_PadConv2dPostFilter` (postfilters.py lines 380-466)  -/

/-- The validated `padding_side` of a band filter ("none" names the middle
band). -/
inductive PadSide
  | left
  | middle
  | right
deriving DecidableEq, Repr

/-- Construction-time validation of the `padding_side` string
(`_PadConv2dPostFilter.__init__`, lines 398-406). -/
def padSideOfString (side : String) : Except String PadSide :=
  if side = "left" then .ok .left
  else if side = "none" then .ok .middle
  else if side = "right" then .ok .right
  else .error "Invalid padding side"

/-- The `nn.ReflectionPad2d` argument tuple `(left, right, top, bottom)` =
(feature-low, feature-high, time-low, time-high) built at construction:
`left → (p, 0, p, p)`, `none → (0, 0, p, p)`, `right → (0, p, p, p)`. -/
def padTupleOf (side : PadSide) (p : ℕ) : ℕ × ℕ × ℕ × ℕ :=
  match side with
  | .left => (p, 0, p, p)
  | .middle => (0, 0, p, p)
  | .right => (0, p, p, p)

/-- The reflection-pad configuration `_PadConv2dPostFilter.__init__` derives
from a `padding_side` string and a kernel size. -/
def padConv2dInitPad (side : String) (kernel_size : ℕ) : Except String (ℕ × ℕ × ℕ × ℕ) := do
  let s ← padSideOfString side
  pure (padTupleOf s ((kernel_size - 1) / 2))

/-- Reflection padding of a row: `pl` reflected samples on the low edge,
`pr` on the high edge (edge sample not repeated). -/
def reflPadVec (pl pr : ℕ) (v : Vec) : Vec :=
  ((List.range pl).map (fun k => v.getD (pl - k) 0)) ++ v ++
  ((List.range pr).map (fun k => v.getD (v.length - 2 - k) 0))

/-- `nn.ReflectionPad2d (pl, pr, pt, pb)` on a `T × F` plane. -/
def reflPadMat (pl pr pt pb : ℕ) (m : Mat) : Mat :=
  ((List.range pt).map (fun k => (m.map (reflPadVec pl pr)).getD (pt - k) [])) ++
  (m.map (reflPadVec pl pr)) ++
  ((List.range pb).map (fun k => (m.map (reflPadVec pl pr)).getD (m.length - 2 - k) []))

/-- `nn.ReflectionPad2d` on a `(Ch, T, F)` image. -/
def reflPad2d (pads : ℕ × ℕ × ℕ × ℕ) (img : Ten3) : Ten3 :=
  img.map (reflPadMat pads.1 pads.2.1 pads.2.2.1 pads.2.2.2)

/-- `nn.ReflectionPad2d` on a `(B, Ch, T, F)` tensor. -/
def reflPad2dB (pads : ℕ × ℕ × ℕ × ℕ) (x : Ten4) : Ten4 :=
  x.map (reflPad2d pads)

/-- The directional feature-axis trim of the raw input after stage 1
(`_PadConv2dPostFilter.forward`, lines 451-456), with Python slice
semantics: `left` is `row[:-p]`, `none` is `row[p:-p]`, `right` is
`row[p:]` (for `p = 0` the `-p` stops make the first two empty). -/
def trimFeatRow (side : PadSide) (p : ℕ) (row : Vec) : Vec :=
  match side with
  | .left => if p = 0 then [] else row.take (row.length - p)
  | .middle => if p = 0 then [] else (row.drop p).take (row.length - 2 * p)
  | .right => row.drop p

/-- The directional trim applied to a `(B, Ch, T, F)` tensor. -/
def trimFeat4 (side : PadSide) (p : ℕ) (x : Ten4) : Ten4 :=
  x.map (fun i => i.map (fun m => m.map (trimFeatRow side p)))

/-- A constructed `_PadConv2dPostFilter`: the band role, kernel size and the
learned weights (`w1 : C × 2 × ks × ks` valid convolution after the explicit
reflection pad; `w2 : 2C × (C+1) × ks × 3`, `w3 : C × (2C+1) × ks × 3`,
`w4 : 1 × (C+1) × ks × 1` with reflect padding; `fc = nn.Linear(1, in_dim)`
projecting the shared frame-wise noise scalar to the band's padded width). -/
structure PadConv2dPostFilter where
  ks : ℕ
  side : PadSide
  fcW : Mat
  fcB : Vec
  w1 : Ten4
  b1 : Vec
  w2 : Ten4
  b2 : Vec
  w3 : Ten4
  b3 : Vec
  w4 : Ten4
  b4 : Vec

/-- `_PadConv2dPostFilter.forward` (lines 441-466): project the shared
frame-wise noise to the band width, reflection-pad input and noise per the
band role, run the valid first stage, trim the raw input directionally, run
stages 2-4 (each fed the concatenation of the trimmed input with the
previous stage's output) and add the residual to the trimmed input. -/
def PadConv2dPostFilter.forward (m : PadConv2dPostFilter) (x z : Ten3) :
    Except String Ten3 := do
  let p := (m.ks - 1) / 2
  let x4 := unsq1 x
  let z4 := linear4 m.fcW m.fcB (unsq1 z)
  let x_syn := x4
  let y ← conv2dB .zeros m.w1 m.b1 0 0
    (cat4Dim1 (reflPad2dB (padTupleOf m.side p) x_syn) (reflPad2dB (padTupleOf m.side p) z4))
  let y := relu4 y
  let x_syn := trimFeat4 m.side p x4
  let y ← conv2dB .reflect m.w2 m.b2 p 1 (cat4Dim1 x_syn y)
  let y := relu4 y
  let y ← conv2dB .reflect m.w3 m.b3 p 1 (cat4Dim1 x_syn y)
  let y := relu4 y
  let residual ← conv2dB .reflect m.w4 m.b4 p 0 (cat4Dim1 x_syn y)
  let out := add4 x_syn residual
  pure (sq1 out)

/-!  ## `MultistreamConv2dPostFilter` (postfilters.py lines 469-538)  -/

/-- A constructed `MultistreamConv2dPostFilter`: three band filters over the
band-size triple, kernel size and noise scale. -/
structure MultistreamConv2dPostFilter where
  ks : ℕ
  scale : ℚ
  stream_sizes : ℕ × ℕ × ℕ
  low_postfilter : PadConv2dPostFilter
  mid_postfilter : PadConv2dPostFilter
  high_postfilter : PadConv2dPostFilter

/-- `MultistreamConv2dPostFilter.forward` (lines 513-538): assert the input
width, draw one shared frame-wise noise tensor of shape `(B, T, 1)`, slice
the three overlapping band sub-ranges, filter each band with the shared
noise, and concatenate the three outputs along the feature axis. -/
def MultistreamConv2dPostFilter.forward (m : MultistreamConv2dPostFilter)
    (rng : ℕ → ℚ) (x : Ten3) (lengths : Option (List ℕ)) : Except String Ten3 := do
  if ((x.headD []).headD []).length =
      m.stream_sizes.1 + m.stream_sizes.2.1 + m.stream_sizes.2.2 then
    let p := (m.ks - 1) / 2
    let z := randn3 rng x.length (x.headD []).length 1 m.scale
    let out1 ← m.low_postfilter.forward (takeCh x (m.stream_sizes.1 + p)) z
    let out2 ← m.mid_postfilter.forward
      (sliceCh x (m.stream_sizes.1 - p) (m.stream_sizes.2.1 + 2 * p)) z
    let out3 ← m.high_postfilter.forward
      (dropCh x (m.stream_sizes.1 + m.stream_sizes.2.1 - p)) z
    pure (catFeat (catFeat out1 out2) out3)
  else .error "assert x.shape[-1] == sum(stream_sizes)"

/-!  ## Spec-side definitions, well-formedness predicates and fixtures  -/

/-- The channel row of a `(B, T, C)` tensor at batch `b`, time `t`. -/
def rowOf (x : Ten3) (b t : ℕ) : Vec := (x.getD b []).getD t []

/-- One cell of a `(B, C, T)` tensor. -/
def cellOf (x : Ten3) (b ch t : ℕ) : ℚ := ((x.getD b []).getD ch []).getD t 0

/-- The four-stage residual-with-conditioning pipeline as the claim about
`Conv1dPostFilter.forward` states it: stage 1 consumes the original
transposed input (concatenated with the noise field when one is injected),
stages 2-4 each consume the concatenation of the original transposed input
with the previous stage's output, ReLU follows stages 1-3, and the result
is the input plus the stage-4 residual, transposed back. -/
def conv1dSpecStages (m : Conv1dPostFilter) (x : Ten3) (noise : Option Ten3) : Ten3 :=
  let xT := transpose12 x
  let p := (m.ks - 1) / 2
  let y1 := relu3 (conv1dU m.mode m.w1 m.b1 p (match noise with
    | some z => catDim1 xT z
    | Option.none => xT))
  let y2 := relu3 (conv1dU m.mode m.w2 m.b2 p (catDim1 xT y1))
  let y3 := relu3 (conv1dU m.mode m.w3 m.b3 p (catDim1 xT y2))
  transpose12 (bAdd3 xT (conv1dU m.mode m.w4 m.b4 p (catDim1 xT y3)))

/-- One output cell of the Noise Modulator as the claim states it: the
noise cell multiplied by the logistic squashing of the channel-independent
(depthwise) convolution of the conditioning signal at the same channel. -/
def tadnSpecCell (m : SimplifiedTADN) (z c : Ten3) (b ch t : ℕ) : ℚ :=
  cellOf z b ch t *
    m.sigmoid (m.gb.getD ch 0 +
      ((List.range (((m.gw.getD ch []).headD []).length)).map (fun (k : ℕ) =>
        ((m.gw.getD ch []).headD []).getD k 0 *
          vget ((c.getD b []).getD ch [])
            ((t : ℤ) + (k : ℤ) - (((m.ks - 1) / 2 : ℕ) : ℤ)))).sum)

/-- Well-formedness of a `SimplifiedTADN` for `C` channels: odd kernel
`2q + 1` and a depthwise weight stack `C × 1 × ks`. -/
def TadnWf (td : SimplifiedTADN) (C q : ℕ) : Prop :=
  td.ks = 2 * q + 1 ∧ Rect3 td.gw C 1 td.ks ∧ td.gb.length = C

/-- Well-formedness of an optional TADN for `C` channels. -/
def TadnOk (o : Option SimplifiedTADN) (C : ℕ) : Prop :=
  match o with
  | Option.none => True
  | some td => ∃ q, TadnWf td C q

/-- Well-formedness of a `Conv1dPostFilter`'s weights: odd kernel `2p + 1`,
stage widths `C`, `C2`, `C3`, stage-1 input width 2 with noise and 1
without, single-channel stage-4 output. -/
def Conv1dPFwf (m : Conv1dPostFilter) (C C2 C3 p : ℕ) : Prop :=
  m.ks = 2 * p + 1 ∧ 0 < C ∧ 0 < C2 ∧ 0 < C3 ∧
  Rect3 m.w1 C (if m.use_noise then 2 else 1) m.ks ∧ m.b1.length = C ∧
  Rect3 m.w2 C2 (C + 1) m.ks ∧ m.b2.length = C2 ∧
  Rect3 m.w3 C3 (C2 + 1) m.ks ∧ m.b3.length = C3 ∧
  Rect3 m.w4 1 (C3 + 1) m.ks ∧ m.b4.length = 1

/-- Well-formedness of a `_PadConv2dPostFilter` for a band slice of width
`W`: odd kernel `2p + 1` with `p > 0`, the stage weight shapes of
`_PadConv2dPostFilter.__init__`, and `fc = nn.Linear(1, W)`. -/
def PadPFwf (mm : PadConv2dPostFilter) (W C C2 C3 p : ℕ) : Prop :=
  mm.ks = 2 * p + 1 ∧ 0 < p ∧ 0 < C ∧ 0 < C2 ∧ 0 < C3 ∧
  Rect4 mm.w1 C 2 mm.ks mm.ks ∧ mm.b1.length = C ∧
  Rect4 mm.w2 C2 (C + 1) mm.ks 3 ∧ mm.b2.length = C2 ∧
  Rect4 mm.w3 C3 (C2 + 1) mm.ks 3 ∧ mm.b3.length = C3 ∧
  Rect4 mm.w4 1 (C3 + 1) mm.ks 1 ∧ mm.b4.length = 1 ∧
  RectM mm.fcW W 1 ∧ mm.fcB.length = W

/-- The feature width a band filter returns for an input band of width `W`:
the directional trim removes `p` columns on one side for the edge bands and
`p` on both sides for the middle band. -/
def outWSide (side : PadSide) (W p : ℕ) : ℕ :=
  match side with
  | .left => W - p
  | .middle => W - 2 * p
  | .right => W - p

/-- A stream filter that preserves tensor shape (as every post-filter in
the file does). -/
def WidthPres (f : StreamFilter) : Prop :=
  ∀ s l B T C, Rect3 s B T C → Rect3 (f s l) B T C

/-- Shape preservation for an optional stream filter. -/
def WidthPresOpt (o : Option StreamFilter) : Prop :=
  match o with
  | Option.none => True
  | some f => WidthPres f

/-- All-zero vector, matrix and tensors (witness fixtures). -/
def zq (n : ℕ) : Vec := List.replicate n 0

def zq2 (a b : ℕ) : Mat := List.replicate a (zq b)

def zq3 (a b c : ℕ) : Ten3 := List.replicate a (zq2 b c)

def zq4 (a b c d : ℕ) : Ten4 := List.replicate a (zq3 b c d)

/-- A fixed draw stream (all zeros). -/
def rngA : ℕ → ℚ := fun _ => 0

/-- A second, different draw stream. -/
def rngB : ℕ → ℚ := fun n => (n : ℚ) + 1

/-- A concrete noise-free single-channel `Conv1dPostFilter` (channels 1,
kernel 3, zero weights). -/
def c1fix : Conv1dPostFilter :=
  ⟨false, 1, 3, PadMode.zeros, Option.none,
   zq3 1 1 3, zq 1, zq3 1 2 3, zq 1, zq3 1 2 3, zq 1, zq3 1 2 3, zq 1⟩

/-- A concrete noise-free `Conv2dPostFilter` (bin-wise noise type, channels
1, kernel `(3, 3)`, zero weights). -/
def c2fix : Conv2dPostFilter :=
  ⟨false, NoiseType.bin_wise, true, 1, 3, 3, PadMode.zeros, Option.none,
   zq2 1 1, zq 1,
   zq4 1 1 3 3, zq 1, zq4 1 2 3 3, zq 1, zq4 1 2 3 3, zq 1, zq4 1 2 3 3, zq 1⟩

/-- A concrete `MultistreamPostFilter` with identity stream filters,
4-stream partition `[3, 1, 1, 2]`, MGC offset 2 and BAP offset 1. -/
def msfix : MultistreamPostFilter :=
  ⟨some (fun s _ => s), some (fun s _ => s), some (fun s _ => s), [3, 1, 1, 2], 2, 1⟩

/-- Concrete band filters for bands `(8, 20, 30)` with kernel 5 (zero
weights, channel width 1 per stage). -/
def padfixL : PadConv2dPostFilter :=
  ⟨5, PadSide.left, zq2 10 1, zq 10,
   zq4 1 2 5 5, zq 1, zq4 1 2 5 3, zq 1, zq4 1 2 5 3, zq 1, zq4 1 2 5 1, zq 1⟩

def padfixM : PadConv2dPostFilter :=
  ⟨5, PadSide.middle, zq2 24 1, zq 24,
   zq4 1 2 5 5, zq 1, zq4 1 2 5 3, zq 1, zq4 1 2 5 3, zq 1, zq4 1 2 5 1, zq 1⟩

def padfixH : PadConv2dPostFilter :=
  ⟨5, PadSide.right, zq2 32 1, zq 32,
   zq4 1 2 5 5, zq 1, zq4 1 2 5 3, zq 1, zq4 1 2 5 3, zq 1, zq4 1 2 5 1, zq 1⟩

/-- A concrete `MultistreamConv2dPostFilter` over bands `(8, 20, 30)`. -/
def mscfix : MultistreamConv2dPostFilter :=
  ⟨5, 1, (8, 20, 30), padfixL, padfixM, padfixH⟩

/-- A shape-preserving stream filter that zeroes every cell (witness
fixture). -/
def zeroFilter : StreamFilter :=
  fun s _ => s.map (fun m => m.map (fun r => r.map (fun _ => 0)))

/-- A `MultistreamPostFilter` with zeroing stream filters, partition
`[3, 1, 1, 2]`, MGC offset 2 and BAP offset 1 (witness fixture). -/
def msfix2 : MultistreamPostFilter :=
  ⟨some zeroFilter, some zeroFilter, some zeroFilter, [3, 1, 1, 2], 2, 1⟩

/-- A concrete Noise Modulator: 1 channel, kernel 3, weight `[1, 0, 1]`,
zero bias, with the constant `1/2` as a (strictly-inside-`(0,1)`-valued)
squashing function. -/
def tadfix : SimplifiedTADN := ⟨[[[1, 0, 1]]], [0], 3, fun _ => 1 / 2⟩

instance PadPFwf.dec (mm : PadConv2dPostFilter) (W C C2 C3 p : ℕ) :
    Decidable (PadPFwf mm W C C2 C3 p) := by
  unfold PadPFwf; infer_instance

instance TadnWf.dec (td : SimplifiedTADN) (C q : ℕ) : Decidable (TadnWf td C q) := by
  unfold TadnWf; infer_instance

instance Conv1dPFwf.dec (m : Conv1dPostFilter) (C C2 C3 p : ℕ) :
    Decidable (Conv1dPFwf m C C2 C3 p) := by
  unfold Conv1dPFwf; infer_instance

instance exceptDecEq {ε α : Type} [DecidableEq ε] [DecidableEq α] :
    DecidableEq (Except ε α) := fun a b =>
  match a, b with
  | Except.ok x, Except.ok y =>
      if h : x = y then Decidable.isTrue (congrArg Except.ok h)
      else Decidable.isFalse (fun hc => h (Except.ok.inj hc))
  | Except.error e, Except.error f =>
      if h : e = f then Decidable.isTrue (congrArg Except.error h)
      else Decidable.isFalse (fun hc => h (Except.error.inj hc))
  | Except.ok _, Except.error _ => Decidable.isFalse (fun hc => Except.noConfusion hc)
  | Except.error _, Except.ok _ => Decidable.isFalse (fun hc => Except.noConfusion hc)

/-!  ## Shape lemmas  -/

theorem headD_mem {α : Type} (l : List α) (d : α) (h : 0 < l.length) : l.headD d ∈ l := by
  cases l with
  | nil => simp at h
  | cons a t => simp

theorem RectM.hlen {m : Mat} {a b : ℕ} (h : RectM m a b) (ha : 0 < a) :
    (m.headD []).length = b :=
  h.2 _ (headD_mem _ _ (h.1 ▸ ha))

theorem Rect3.hrow {x : Ten3} {B T C : ℕ} (h : Rect3 x B T C) (hB : 0 < B) :
    RectM (x.headD []) T C :=
  h.2 _ (headD_mem _ _ (h.1 ▸ hB))

theorem Rect3.hlen3 {x : Ten3} {B T C : ℕ} (h : Rect3 x B T C) (hB : 0 < B) :
    (x.headD []).length = T :=
  (h.hrow hB).1

theorem Rect3.head_head_len {x : Ten3} {B T C : ℕ} (h : Rect3 x B T C) (hB : 0 < B)
    (hT : 0 < T) : ((x.headD []).headD []).length = C :=
  (h.hrow hB).hlen hT

theorem Rect4.hrow4 {x : Ten4} {B Ch T F : ℕ} (h : Rect4 x B Ch T F) (hB : 0 < B) :
    Rect3 (x.headD []) Ch T F :=
  h.2 _ (headD_mem _ _ (h.1 ▸ hB))

theorem RectM_rangeMap {g : ℕ → Vec} {n C : ℕ} (hg : ∀ i < n, (g i).length = C) :
    RectM ((List.range n).map g) n C := by
  refine ⟨by simp, ?_⟩
  intro r hr
  simp only [List.mem_map, List.mem_range] at hr
  obtain ⟨i, hi, rfl⟩ := hr
  exact hg i hi

theorem Rect3_rangeMap {g : ℕ → Mat} {n T C : ℕ} (hg : ∀ i < n, RectM (g i) T C) :
    Rect3 ((List.range n).map g) n T C := by
  refine ⟨by simp, ?_⟩
  intro m hm
  simp only [List.mem_map, List.mem_range] at hm
  obtain ⟨i, hi, rfl⟩ := hm
  exact hg i hi

theorem zipWith_forall {α β γ : Type} {f : α → β → γ} {P : γ → Prop}
    {a : List α} {b : List β} (h : ∀ x ∈ a, ∀ y ∈ b, P (f x y)) :
    ∀ z ∈ List.zipWith f a b, P z := by
  induction a generalizing b with
  | nil => simp
  | cons x xs ih =>
    cases b with
    | nil => simp
    | cons y ys =>
      intro z hz
      simp only [List.zipWith_cons_cons, List.mem_cons] at hz
      rcases hz with rfl | hz
      · exact h x (by simp) y (by simp)
      · exact ih (fun x' hx' y' hy' => h x' (by simp [hx']) y' (by simp [hy'])) z hz

theorem conv1dT_rect {mode : PadMode} {w : Ten3} {b : Vec} {p : ℕ} {x : Mat}
    {Cout Cin K T : ℕ} (hw : Rect3 w Cout Cin K) (hCout : 0 < Cout) (hCin : 0 < Cin)
    (hx : RectM x Cin T) : RectM (conv1dT mode w b p x) Cout (T + 2 * p + 1 - K) := by
  unfold conv1dT
  rw [hx.hlen hCin, hw.head_head_len hCout hCin, ← hw.1]
  exact RectM_rangeMap (fun i _ => by simp)

theorem conv1dU_rect (mode : PadMode) (b : Vec) (p : ℕ) {w : Ten3} {x : Ten3}
    {B Cout Cin K T : ℕ} (hw : Rect3 w Cout Cin K) (hCout : 0 < Cout) (hCin : 0 < Cin)
    (hx : Rect3 x B Cin T) :
    Rect3 (conv1dU mode w b p x) B Cout (T + 2 * p + 1 - K) := by
  refine ⟨by simp [conv1dU, hx.1], ?_⟩
  intro m hm
  simp only [conv1dU, List.mem_map] at hm
  obtain ⟨m0, hm0, rfl⟩ := hm
  exact conv1dT_rect hw hCout hCin (hx.2 _ hm0)

theorem conv1dB_ok (mode : PadMode) (b : Vec) (p : ℕ) {w : Ten3} {x : Ten3}
    {B Cout Cin K T : ℕ} (hw : Rect3 w Cout Cin K) (hCout : 0 < Cout) (hCin : 0 < Cin)
    (hx : Rect3 x B Cin T) :
    conv1dB mode w b p x = .ok (conv1dU mode w b p x) := by
  unfold conv1dB
  rw [if_pos]
  simp only [List.all_eq_true, decide_eq_true_eq]
  intro xb hxb
  rw [(hx.2 _ hxb).1, hw.hrow hCout |>.1]

theorem conv2dT_rect {mode : PadMode} {w : Ten4} {b : Vec} {pt pf : ℕ} {img : Ten3}
    {Cout Cin KT KF T F : ℕ} (hw : Rect4 w Cout Cin KT KF) (hCout : 0 < Cout)
    (hCin : 0 < Cin) (hKT : 0 < KT) (hT : 0 < T) (himg : Rect3 img Cin T F) :
    Rect3 (conv2dT mode w b pt pf img) Cout (T + 2 * pt + 1 - KT) (F + 2 * pf + 1 - KF) := by
  unfold conv2dT
  rw [himg.hlen3 hCin, himg.head_head_len hCin hT,
    (hw.hrow4 hCout).hlen3 hCin, (hw.hrow4 hCout).head_head_len hCin hKT, ← hw.1]
  exact Rect3_rangeMap (fun i _ => RectM_rangeMap (fun j _ => by simp))

theorem conv2dU_rect (mode : PadMode) (b : Vec) (pt pf : ℕ) {w : Ten4} {x : Ten4}
    {B Cout Cin KT KF T F : ℕ} (hw : Rect4 w Cout Cin KT KF) (hCout : 0 < Cout)
    (hCin : 0 < Cin) (hKT : 0 < KT) (hT : 0 < T) (hx : Rect4 x B Cin T F) :
    Rect4 (conv2dU mode w b pt pf x) B Cout (T + 2 * pt + 1 - KT) (F + 2 * pf + 1 - KF) := by
  refine ⟨by simp [conv2dU, hx.1], ?_⟩
  intro i hi
  simp only [conv2dU, List.mem_map] at hi
  obtain ⟨i0, hi0, rfl⟩ := hi
  exact conv2dT_rect hw hCout hCin hKT hT (hx.2 _ hi0)

theorem conv2dB_ok (mode : PadMode) (b : Vec) (pt pf : ℕ) {w : Ten4} {x : Ten4}
    {B Cout Cin T F : ℕ} {KT KF : ℕ} (hw : Rect4 w Cout Cin KT KF) (hCout : 0 < Cout)
    (hx : Rect4 x B Cin T F) :
    conv2dB mode w b pt pf x = .ok (conv2dU mode w b pt pf x) := by
  unfold conv2dB
  rw [if_pos]
  simp only [List.all_eq_true, decide_eq_true_eq]
  intro img himg
  rw [(hx.2 _ himg).1, (hw.hrow4 hCout).1]

theorem reluM_rect {m : Mat} {T C : ℕ} (h : RectM m T C) : RectM (reluM m) T C := by
  refine ⟨by simp [reluM, h.1], ?_⟩
  intro r hr
  simp only [reluM, List.mem_map] at hr
  obtain ⟨r0, hr0, rfl⟩ := hr
  simp [h.2 _ hr0]

theorem relu3_rect {x : Ten3} {B T C : ℕ} (h : Rect3 x B T C) : Rect3 (relu3 x) B T C := by
  refine ⟨by simp [relu3, h.1], ?_⟩
  intro m hm
  simp only [relu3, List.mem_map] at hm
  obtain ⟨m0, hm0, rfl⟩ := hm
  exact reluM_rect (h.2 _ hm0)

theorem relu4_rect {x : Ten4} {B Ch T F : ℕ} (h : Rect4 x B Ch T F) :
    Rect4 (relu4 x) B Ch T F := by
  refine ⟨by simp [relu4, h.1], ?_⟩
  intro i hi
  simp only [relu4, List.mem_map] at hi
  obtain ⟨i0, hi0, rfl⟩ := hi
  exact relu3_rect (h.2 _ hi0)

theorem catDim1_rect {a b : Ten3} {B C1 C2 T : ℕ} (ha : Rect3 a B C1 T)
    (hb : Rect3 b B C2 T) : Rect3 (catDim1 a b) B (C1 + C2) T := by
  refine ⟨by simp [catDim1, ha.1, hb.1], ?_⟩
  exact zipWith_forall (fun ma hma mb hmb =>
    ⟨by simp [(ha.2 _ hma).1, (hb.2 _ hmb).1], by
      intro r hr
      rcases List.mem_append.mp hr with h | h
      · exact (ha.2 _ hma).2 _ h
      · exact (hb.2 _ hmb).2 _ h⟩)

theorem cat4Dim1_rect {a b : Ten4} {B C1 C2 T F : ℕ} (ha : Rect4 a B C1 T F)
    (hb : Rect4 b B C2 T F) : Rect4 (cat4Dim1 a b) B (C1 + C2) T F := by
  refine ⟨by simp [cat4Dim1, ha.1, hb.1], ?_⟩
  exact zipWith_forall (fun ia hia ib hib =>
    ⟨by simp [(ha.2 _ hia).1, (hb.2 _ hib).1], by
      intro m hm
      rcases List.mem_append.mp hm with h | h
      · exact (ha.2 _ hia).2 _ h
      · exact (hb.2 _ hib).2 _ h⟩)

theorem catFeat_rect {a b : Ten3} {B T C1 C2 : ℕ} (ha : Rect3 a B T C1)
    (hb : Rect3 b B T C2) : Rect3 (catFeat a b) B T (C1 + C2) := by
  refine ⟨by simp [catFeat, ha.1, hb.1], ?_⟩
  exact zipWith_forall (fun ma hma mb hmb =>
    ⟨by simp [(ha.2 _ hma).1, (hb.2 _ hmb).1], by
      exact zipWith_forall (fun ra hra rb hrb => by
        simp [(ha.2 _ hma).2 _ hra, (hb.2 _ hmb).2 _ hrb])⟩)

theorem unsq1_rect {x : Ten3} {B T C : ℕ} (h : Rect3 x B T C) :
    Rect4 (unsq1 x) B 1 T C := by
  refine ⟨by simp [unsq1, h.1], ?_⟩
  intro i hi
  simp only [unsq1, List.mem_map] at hi
  obtain ⟨m0, hm0, rfl⟩ := hi
  exact ⟨rfl, by intro m hm; simp only [List.mem_singleton] at hm; exact hm ▸ h.2 _ hm0⟩

theorem sq1_rect {x : Ten4} {B T C : ℕ} (h : Rect4 x B 1 T C) :
    Rect3 (sq1 x) B T C := by
  refine ⟨by simp [sq1, h.1], ?_⟩
  intro m hm
  simp only [sq1, List.mem_map] at hm
  obtain ⟨i0, hi0, rfl⟩ := hm
  exact (h.2 _ hi0).hrow (by norm_num)

theorem linearRow_len {w : Mat} {b x : Vec} : (linearRow w b x).length = w.length := by
  simp [linearRow]

theorem linear4_rect {w : Mat} {b : Vec} {x : Ten4} {B Ch T F n k : ℕ}
    (hw : RectM w n k) (h : Rect4 x B Ch T F) : Rect4 (linear4 w b x) B Ch T n := by
  refine ⟨by simp [linear4, h.1], ?_⟩
  intro i hi
  simp only [linear4, List.mem_map] at hi
  obtain ⟨i0, hi0, rfl⟩ := hi
  refine ⟨by simp [(h.2 _ hi0).1], ?_⟩
  intro m hm
  simp only [List.mem_map] at hm
  obtain ⟨m0, hm0, rfl⟩ := hm
  refine ⟨by simp [((h.2 _ hi0).2 _ hm0).1], ?_⟩
  intro r hr
  simp only [List.mem_map] at hr
  obtain ⟨r0, _, rfl⟩ := hr
  simp [linearRow_len, hw.1]

theorem mT_rect {m : Mat} {a b : ℕ} (h : RectM m a b) (ha : 0 < a) :
    RectM (mT m) b a := by
  unfold mT
  rw [h.hlen ha]
  exact RectM_rangeMap (fun i _ => by simp [h.1])

theorem transpose12_rect {x : Ten3} {B a b : ℕ} (h : Rect3 x B a b) (ha : 0 < a) :
    Rect3 (transpose12 x) B b a := by
  refine ⟨by simp [transpose12, h.1], ?_⟩
  intro m hm
  simp only [transpose12, List.mem_map] at hm
  obtain ⟨m0, hm0, rfl⟩ := hm
  exact mT_rect (h.2 _ hm0) ha

theorem addM_rect {a b : Mat} {T C : ℕ} (ha : RectM a T C) (hb : RectM b T C) :
    RectM (addM a b) T C := by
  refine ⟨by simp [addM, ha.1, hb.1], ?_⟩
  exact zipWith_forall (fun ra hra rb hrb => by
    simp [ha.2 _ hra, hb.2 _ hrb])

theorem add3_rect {a b : Ten3} {B T C : ℕ} (ha : Rect3 a B T C) (hb : Rect3 b B T C) :
    Rect3 (add3 a b) B T C := by
  refine ⟨by simp [add3, ha.1, hb.1], ?_⟩
  exact zipWith_forall (fun ma hma mb hmb => addM_rect (ha.2 _ hma) (hb.2 _ hmb))

theorem add4_rect {a b : Ten4} {B Ch T F : ℕ} (ha : Rect4 a B Ch T F)
    (hb : Rect4 b B Ch T F) : Rect4 (add4 a b) B Ch T F := by
  refine ⟨by simp [add4, ha.1, hb.1], ?_⟩
  exact zipWith_forall (fun ia hia ib hib => add3_rect (ha.2 _ hia) (hb.2 _ hib))

theorem mulM_rect {a b : Mat} {T C : ℕ} (ha : RectM a T C) (hb : RectM b T C) :
    RectM (mulM a b) T C := by
  refine ⟨by simp [mulM, ha.1, hb.1], ?_⟩
  exact zipWith_forall (fun ra hra rb hrb => by
    simp [ha.2 _ hra, hb.2 _ hrb])

theorem bAddM_rect {x r : Mat} {C T : ℕ} (hx : RectM x C T) (hr : RectM r 1 T) :
    RectM (bAddM x r) C T := by
  unfold bAddM
  rw [if_pos hr.1]
  refine ⟨by simp [hx.1], ?_⟩
  intro row hrow
  simp only [List.mem_map] at hrow
  obtain ⟨r0, hr0, rfl⟩ := hrow
  rw [List.length_zipWith, hx.2 _ hr0, hr.hlen (by norm_num), Nat.min_self]

theorem bAdd3_rect {x r : Ten3} {B C T : ℕ} (hx : Rect3 x B C T) (hr : Rect3 r B 1 T) :
    Rect3 (bAdd3 x r) B C T := by
  refine ⟨by simp [bAdd3, hx.1, hr.1], ?_⟩
  exact zipWith_forall (fun ma hma mb hmb => bAddM_rect (hx.2 _ hma) (hr.2 _ hmb))

theorem reflPadVec_len {pl pr : ℕ} {v : Vec} :
    (reflPadVec pl pr v).length = pl + v.length + pr := by
  simp [reflPadVec]
  omega

theorem reflPadMat_rect {pl pr pt pb : ℕ} {m : Mat} {T F : ℕ} (h : RectM m T F)
    (hpt : pt < T) : RectM (reflPadMat pl pr pt pb m) (pt + T + pb) (pl + F + pr) := by
  have hrow : ∀ i, i < T → ((m.map (reflPadVec pl pr)).getD i []).length = pl + F + pr := by
    intro i hi
    rw [List.getD_eq_getElem _ _ (by simpa [h.1] using hi)]
    rw [List.getElem_map]
    rw [reflPadVec_len, h.2 _ (List.getElem_mem _)]
  constructor
  · simp [reflPadMat, h.1]
    omega
  · intro r hr
    unfold reflPadMat at hr
    rcases List.mem_append.mp hr with hr' | hr'
    · rcases List.mem_append.mp hr' with hr'' | hr''
      · simp only [List.mem_map, List.mem_range] at hr''
        obtain ⟨k, hk, rfl⟩ := hr''
        exact hrow _ (by omega)
      · simp only [List.mem_map] at hr''
        obtain ⟨r0, hr0, rfl⟩ := hr''
        rw [reflPadVec_len, h.2 _ hr0]
    · simp only [List.mem_map, List.mem_range] at hr'
      obtain ⟨k, hk, rfl⟩ := hr'
      exact hrow _ (by have h1 := h.1; omega)

theorem reflPad2d_rect {pads : ℕ × ℕ × ℕ × ℕ} {img : Ten3} {Ch T F : ℕ}
    (h : Rect3 img Ch T F) (hpt : pads.2.2.1 < T) :
    Rect3 (reflPad2d pads img) Ch (pads.2.2.1 + T + pads.2.2.2) (pads.1 + F + pads.2.1) := by
  refine ⟨by simp [reflPad2d, h.1], ?_⟩
  intro m hm
  simp only [reflPad2d, List.mem_map] at hm
  obtain ⟨m0, hm0, rfl⟩ := hm
  exact reflPadMat_rect (h.2 _ hm0) hpt

theorem reflPad2dB_rect (pads : ℕ × ℕ × ℕ × ℕ) {x : Ten4} {B Ch T F : ℕ}
    (h : Rect4 x B Ch T F) (hpt : pads.2.2.1 < T) :
    Rect4 (reflPad2dB pads x) B Ch (pads.2.2.1 + T + pads.2.2.2) (pads.1 + F + pads.2.1) := by
  refine ⟨by simp [reflPad2dB, h.1], ?_⟩
  intro i hi
  simp only [reflPad2dB, List.mem_map] at hi
  obtain ⟨i0, hi0, rfl⟩ := hi
  exact reflPad2d_rect (h.2 _ hi0) hpt

theorem trimFeatRow_len {side : PadSide} {p : ℕ} {row : Vec} (hp : 0 < p) :
    (trimFeatRow side p row).length = outWSide side row.length p := by
  cases side with
  | left =>
    simp only [trimFeatRow, outWSide]
    rw [if_neg (by omega)]
    simp only [List.length_take]
    omega
  | middle =>
    simp only [trimFeatRow, outWSide]
    rw [if_neg (by omega)]
    simp only [List.length_take, List.length_drop]
    omega
  | right =>
    simp only [trimFeatRow, outWSide, List.length_drop]

theorem trimFeat4_rect {side : PadSide} {p : ℕ} {x : Ten4} {B Ch T F : ℕ} (hp : 0 < p)
    (h : Rect4 x B Ch T F) : Rect4 (trimFeat4 side p x) B Ch T (outWSide side F p) := by
  refine ⟨by simp [trimFeat4, h.1], ?_⟩
  intro i hi
  simp only [trimFeat4, List.mem_map] at hi
  obtain ⟨i0, hi0, rfl⟩ := hi
  refine ⟨by simp [(h.2 _ hi0).1], ?_⟩
  intro m hm
  simp only [List.mem_map] at hm
  obtain ⟨m0, hm0, rfl⟩ := hm
  refine ⟨by simp [((h.2 _ hi0).2 _ hm0).1], ?_⟩
  intro r hr
  simp only [List.mem_map] at hr
  obtain ⟨r0, hr0, rfl⟩ := hr
  rw [trimFeatRow_len hp, ((h.2 _ hi0).2 _ hm0).2 _ hr0]

theorem takeCh_rect (n : ℕ) {x : Ten3} {B T C : ℕ} (h : Rect3 x B T C) :
    Rect3 (takeCh x n) B T (min n C) := by
  refine ⟨by simp [takeCh, h.1], ?_⟩
  intro m hm
  simp only [takeCh, List.mem_map] at hm
  obtain ⟨m0, hm0, rfl⟩ := hm
  refine ⟨by simp [(h.2 _ hm0).1], ?_⟩
  intro r hr
  simp only [List.mem_map] at hr
  obtain ⟨r0, hr0, rfl⟩ := hr
  simp [(h.2 _ hm0).2 _ hr0]

theorem dropCh_rect (n : ℕ) {x : Ten3} {B T C : ℕ} (h : Rect3 x B T C) :
    Rect3 (dropCh x n) B T (C - n) := by
  refine ⟨by simp [dropCh, h.1], ?_⟩
  intro m hm
  simp only [dropCh, List.mem_map] at hm
  obtain ⟨m0, hm0, rfl⟩ := hm
  refine ⟨by simp [(h.2 _ hm0).1], ?_⟩
  intro r hr
  simp only [List.mem_map] at hr
  obtain ⟨r0, hr0, rfl⟩ := hr
  simp [(h.2 _ hm0).2 _ hr0]

theorem sliceCh_rect (st len : ℕ) {x : Ten3} {B T C : ℕ} (h : Rect3 x B T C) :
    Rect3 (sliceCh x st len) B T (min len (C - st)) := by
  refine ⟨by simp [sliceCh, h.1], ?_⟩
  intro m hm
  simp only [sliceCh, List.mem_map] at hm
  obtain ⟨m0, hm0, rfl⟩ := hm
  refine ⟨by simp [(h.2 _ hm0).1], ?_⟩
  intro r hr
  simp only [List.mem_map] at hr
  obtain ⟨r0, hr0, rfl⟩ := hr
  simp [(h.2 _ hm0).2 _ hr0]

theorem randn3_rect {rng : ℕ → ℚ} {B T C : ℕ} {s : ℚ} :
    Rect3 (randn3 rng B T C s) B T C := by
  unfold randn3
  exact Rect3_rangeMap (fun i _ => RectM_rangeMap (fun j _ => by simp))

theorem dwConv_rect (b : Vec) (p : ℕ) {w : Ten3} {c : Mat} {C K T : ℕ}
    (hw : Rect3 w C 1 K) (hC : 0 < C) (hc : RectM c C T) :
    RectM (dwConv w b p c) C (T + 2 * p + 1 - K) := by
  unfold dwConv
  rw [hc.hlen hC, hw.head_head_len hC (by norm_num), ← hw.1]
  exact RectM_rangeMap (fun i _ => by rw [List.length_map, List.length_range])

theorem map_getD {α β : Type} (f : α → β) (l : List α) (d : α) (n : ℕ) :
    (l.map f).getD n (f d) = f (l.getD n d) := by
  induction l generalizing n with
  | nil => simp
  | cons a t ih =>
    cases n with
    | zero => simp
    | succ k => exact ih k

theorem rowOf_mapmap (g : Vec → Vec) (hg : g [] = []) (x : Ten3) (b t : ℕ) :
    rowOf (x.map (fun m => m.map g)) b t = g (rowOf x b t) := by
  unfold rowOf
  have h1 : (x.map (fun m => m.map g)).getD b [] = (x.getD b []).map g := by
    exact map_getD (fun m => m.map g) x [] b
  rw [h1]
  have h2 := map_getD g (x.getD b []) [] t
  rw [hg] at h2
  exact h2

theorem rowOf_takeCh (x : Ten3) (n b t : ℕ) :
    rowOf (takeCh x n) b t = (rowOf x b t).take n :=
  rowOf_mapmap (List.take n) (by simp) x b t

theorem rowOf_dropCh (x : Ten3) (n b t : ℕ) :
    rowOf (dropCh x n) b t = (rowOf x b t).drop n :=
  rowOf_mapmap (List.drop n) (by simp) x b t

theorem rowOf_sliceCh (x : Ten3) (st len b t : ℕ) :
    rowOf (sliceCh x st len) b t = ((rowOf x b t).drop st).take len :=
  rowOf_mapmap (fun r => (r.drop st).take len) (by simp) x b t

theorem rowOf_len {x : Ten3} {B T C : ℕ} (h : Rect3 x B T C) {b t : ℕ} (hb : b < B)
    (ht : t < T) : (rowOf x b t).length = C := by
  unfold rowOf
  have hbx : b < x.length := by rw [h.1]; exact hb
  have hm := h.2 _ (List.getElem_mem hbx)
  have htx : t < (x[b]).length := by rw [hm.1]; exact ht
  rw [List.getD_eq_getElem _ _ hbx, List.getD_eq_getElem _ _ htx]
  exact hm.2 _ (List.getElem_mem htx)

theorem zipWith_getD {α β γ : Type} (f : α → β → γ) (a : List α) (b : List β)
    (da : α) (db : β) (dc : γ) (n : ℕ) (ha : n < a.length) (hb : n < b.length) :
    (List.zipWith f a b).getD n dc = f (a.getD n da) (b.getD n db) := by
  induction a generalizing b n with
  | nil => simp at ha
  | cons x xs ih =>
    cases b with
    | nil => simp at hb
    | cons y ys =>
      cases n with
      | zero => simp
      | succ k =>
        simp only [List.zipWith_cons_cons, List.getD_cons_succ]
        exact ih ys k (by simpa using ha) (by simpa using hb)

theorem rowOf_catFeat {a c : Ten3} {B T Ca Cc : ℕ} (ha : Rect3 a B T Ca)
    (hc : Rect3 c B T Cc) {b t : ℕ} (hb : b < B) (ht : t < T) :
    rowOf (catFeat a c) b t = rowOf a b t ++ rowOf c b t := by
  unfold rowOf catFeat
  have hba : b < a.length := by rw [ha.1]; exact hb
  have hbc : b < c.length := by rw [hc.1]; exact hb
  have hma := ha.2 _ (List.getElem_mem hba)
  have hmc := hc.2 _ (List.getElem_mem hbc)
  have hta : t < (a.getD b []).length := by
    rw [List.getD_eq_getElem _ _ hba, hma.1]; exact ht
  have htc : t < (c.getD b []).length := by
    rw [List.getD_eq_getElem _ _ hbc, hmc.1]; exact ht
  rw [zipWith_getD _ a c [] [] [] b hba hbc]
  rw [zipWith_getD _ _ _ [] [] [] t hta htc]

theorem okBind {ε α β : Type} (a : α) (f : α → Except ε β) :
    (Except.ok a >>= f) = f a := rfl

theorem padconv_forward_ok {m : PadConv2dPostFilter} {x z : Ten3}
    {B T W C C2 C3 p : ℕ} (hwf : PadPFwf m W C C2 C3 p) (hx : Rect3 x B T W)
    (hz : Rect3 z B T 1) (hT : p < T) (hW : 2 * p ≤ W) :
    ∃ out, m.forward x z = Except.ok out ∧ Rect3 out B T (outWSide m.side W p) := by
  obtain ⟨hks, hp, hC, hC2, hC3, hw1, hb1, hw2, hb2, hw3, hb3, hw4, hb4, hfcW, hfcB⟩ := hwf
  have hpp : (m.ks - 1) / 2 = p := by omega
  have hT0 : 0 < T := by omega
  have hks0 : 0 < m.ks := by omega
  have hpads1 : (padTupleOf m.side p).2.2.1 = p := by cases m.side <;> rfl
  have hpads2 : (padTupleOf m.side p).2.2.2 = p := by cases m.side <;> rfl
  have hfeat : (padTupleOf m.side p).1 + W + (padTupleOf m.side p).2.1 + 2 * 0 + 1 - m.ks =
      outWSide m.side W p := by
    rcases hS : m.side <;> simp only [hS, padTupleOf, outWSide] <;> omega
  have hx4 : Rect4 (unsq1 x) B 1 T W := unsq1_rect hx
  have hz4 : Rect4 (linear4 m.fcW m.fcB (unsq1 z)) B 1 T W :=
    linear4_rect hfcW (unsq1_rect hz)
  have hpadx : Rect4 (reflPad2dB (padTupleOf m.side p) (unsq1 x)) B 1 (p + T + p)
      ((padTupleOf m.side p).1 + W + (padTupleOf m.side p).2.1) := by
    have h0 := reflPad2dB_rect (padTupleOf m.side p) hx4 (by rw [hpads1]; exact hT)
    rwa [hpads1, hpads2] at h0
  have hpadz : Rect4 (reflPad2dB (padTupleOf m.side p)
      (linear4 m.fcW m.fcB (unsq1 z))) B 1 (p + T + p)
      ((padTupleOf m.side p).1 + W + (padTupleOf m.side p).2.1) := by
    have h0 := reflPad2dB_rect (padTupleOf m.side p) hz4 (by rw [hpads1]; exact hT)
    rwa [hpads1, hpads2] at h0
  have hcat1 := cat4Dim1_rect hpadx hpadz
  have hc1eq := conv2dB_ok PadMode.zeros m.b1 0 0 hw1 hC hcat1
  have hy1 := conv2dU_rect PadMode.zeros m.b1 0 0 hw1 hC (by norm_num) hks0 (by omega) hcat1
  rw [show p + T + p + 2 * 0 + 1 - m.ks = T by omega, hfeat] at hy1
  have hxs : Rect4 (trimFeat4 m.side p (unsq1 x)) B 1 T (outWSide m.side W p) :=
    trimFeat4_rect hp hx4
  have hcat2 := cat4Dim1_rect hxs (relu4_rect hy1)
  rw [Nat.add_comm 1 C] at hcat2
  have hc2eq := conv2dB_ok PadMode.reflect m.b2 p 1 hw2 hC2 hcat2
  have hy2 := conv2dU_rect PadMode.reflect m.b2 p 1 hw2 hC2 (by omega) hks0 hT0 hcat2
  rw [show T + 2 * p + 1 - m.ks = T by omega,
    show outWSide m.side W p + 2 * 1 + 1 - 3 = outWSide m.side W p by omega] at hy2
  have hcat3 := cat4Dim1_rect hxs (relu4_rect hy2)
  rw [Nat.add_comm 1 C2] at hcat3
  have hc3eq := conv2dB_ok PadMode.reflect m.b3 p 1 hw3 hC3 hcat3
  have hy3 := conv2dU_rect PadMode.reflect m.b3 p 1 hw3 hC3 (by omega) hks0 hT0 hcat3
  rw [show T + 2 * p + 1 - m.ks = T by omega,
    show outWSide m.side W p + 2 * 1 + 1 - 3 = outWSide m.side W p by omega] at hy3
  have hcat4 := cat4Dim1_rect hxs (relu4_rect hy3)
  rw [Nat.add_comm 1 C3] at hcat4
  have hc4eq := conv2dB_ok PadMode.reflect m.b4 p 0 hw4 (by norm_num) hcat4
  have hy4 := conv2dU_rect PadMode.reflect m.b4 p 0 hw4 (by norm_num) (by omega) hks0 hT0 hcat4
  rw [show T + 2 * p + 1 - m.ks = T by omega,
    show outWSide m.side W p + 2 * 0 + 1 - 1 = outWSide m.side W p by omega] at hy4
  refine ⟨(sq1 (add4 (trimFeat4 m.side p (unsq1 x)) (conv2dU PadMode.reflect m.w4 m.b4 p 0 (cat4Dim1 (trimFeat4 m.side p (unsq1 x)) (relu4 (conv2dU PadMode.reflect m.w3 m.b3 p 1 (cat4Dim1 (trimFeat4 m.side p (unsq1 x)) (relu4 (conv2dU PadMode.reflect m.w2 m.b2 p 1 (cat4Dim1 (trimFeat4 m.side p (unsq1 x)) (relu4 (conv2dU PadMode.zeros m.w1 m.b1 0 0 (cat4Dim1 (reflPad2dB (padTupleOf m.side p) (unsq1 x)) (reflPad2dB (padTupleOf m.side p) (linear4 m.fcW m.fcB (unsq1 z)))))))))))))))),
    ?_, sq1_rect (add4_rect hxs hy4)⟩
  unfold PadConv2dPostFilter.forward
  simp only [hpp]
  rw [hc1eq, okBind, hc2eq, okBind, hc3eq, okBind, hc4eq, okBind]
  rfl

/-- C4: on an input of width `low + mid + high`, `MultistreamConv2dPostFilter.forward`
slices exactly the overlapping sub-ranges `[0, low+R)`, `[low-R, low+mid+R)` and
`[low+mid-R, end)`, passes the one shared frame-wise noise tensor of shape
`(B, T, 1)` to all three band filters, the three band outputs have channel
widths exactly `low`, `mid` and `high`, and the concatenated output width
equals the input width. -/
theorem C4_band_orchestrator (m : MultistreamConv2dPostFilter) (rng : ℕ → ℚ)
    (x : Ten3) (lengths : Option (List ℕ))
    (B T s0 s1 s2 p CL CL2 CL3 CM CM2 CM3 CH CH2 CH3 : ℕ)
    (hss : m.stream_sizes = (s0, s1, s2))
    (hks : m.ks = 2 * p + 1)
    (hlow : PadPFwf m.low_postfilter (s0 + p) CL CL2 CL3 p)
    (hlside : m.low_postfilter.side = PadSide.left)
    (hmid : PadPFwf m.mid_postfilter (s1 + 2 * p) CM CM2 CM3 p)
    (hmside : m.mid_postfilter.side = PadSide.middle)
    (hhigh : PadPFwf m.high_postfilter (s2 + p) CH CH2 CH3 p)
    (hhside : m.high_postfilter.side = PadSide.right)
    (hx : Rect3 x B T (s0 + s1 + s2))
    (hB : 0 < B) (hT : p < T) (hs0 : p ≤ s0) (hs2 : p ≤ s2) :
    ∃ out1 out2 out3,
      m.low_postfilter.forward (takeCh x (s0 + p)) (randn3 rng B T 1 m.scale) =
        Except.ok out1 ∧
      m.mid_postfilter.forward (sliceCh x (s0 - p) (s1 + 2 * p)) (randn3 rng B T 1 m.scale) =
        Except.ok out2 ∧
      m.high_postfilter.forward (dropCh x (s0 + s1 - p)) (randn3 rng B T 1 m.scale) =
        Except.ok out3 ∧
      Rect3 (randn3 rng B T 1 m.scale) B T 1 ∧
      Rect3 out1 B T s0 ∧ Rect3 out2 B T s1 ∧ Rect3 out3 B T s2 ∧
      m.forward rng x lengths = Except.ok (catFeat (catFeat out1 out2) out3) ∧
      Rect3 (catFeat (catFeat out1 out2) out3) B T (s0 + s1 + s2) := by
  have hT0 : 0 < T := by omega
  have hxl : x.length = B := hx.1
  have hxt : (x.headD []).length = T := hx.hlen3 hB
  have hcc : ((x.headD []).headD []).length = s0 + s1 + s2 := hx.head_head_len hB hT0
  have hpp : (m.ks - 1) / 2 = p := by omega
  have hz : Rect3 (randn3 rng B T 1 m.scale) B T 1 := randn3_rect
  have hsl1 : Rect3 (takeCh x (s0 + p)) B T (s0 + p) := by
    have h0 := takeCh_rect (s0 + p) hx
    rwa [show min (s0 + p) (s0 + s1 + s2) = s0 + p by omega] at h0
  have hsl2 : Rect3 (sliceCh x (s0 - p) (s1 + 2 * p)) B T (s1 + 2 * p) := by
    have h0 := sliceCh_rect (s0 - p) (s1 + 2 * p) hx
    rwa [show min (s1 + 2 * p) (s0 + s1 + s2 - (s0 - p)) = s1 + 2 * p by omega] at h0
  have hsl3 : Rect3 (dropCh x (s0 + s1 - p)) B T (s2 + p) := by
    have h0 := dropCh_rect (s0 + s1 - p) hx
    rwa [show s0 + s1 + s2 - (s0 + s1 - p) = s2 + p by omega] at h0
  obtain ⟨out1, heq1, hrect1⟩ :=
    padconv_forward_ok hlow hsl1 hz hT (by omega)
  obtain ⟨out2, heq2, hrect2⟩ :=
    padconv_forward_ok hmid hsl2 hz hT (by omega)
  obtain ⟨out3, heq3, hrect3⟩ :=
    padconv_forward_ok hhigh hsl3 hz hT (by omega)
  rw [hlside, show outWSide PadSide.left (s0 + p) p = s0 by
    simp only [outWSide]; omega] at hrect1
  rw [hmside, show outWSide PadSide.middle (s1 + 2 * p) p = s1 by
    simp only [outWSide]; omega] at hrect2
  rw [hhside, show outWSide PadSide.right (s2 + p) p = s2 by
    simp only [outWSide]; omega] at hrect3
  have hcat : Rect3 (catFeat (catFeat out1 out2) out3) B T (s0 + s1 + s2) :=
    catFeat_rect (catFeat_rect hrect1 hrect2) hrect3
  refine ⟨out1, out2, out3, heq1, heq2, heq3, hz, hrect1, hrect2, hrect3, ?_, hcat⟩
  unfold MultistreamConv2dPostFilter.forward
  simp only [hss, hpp, hxl, hxt]
  rw [if_pos hcc]
  rw [heq1, okBind, heq2, okBind, heq3, okBind]
  rfl

/-- Witness for C4: the claim's concrete scenario — bands `(8, 20, 30)` with
reach `R = 2` on an input of width 58: slice widths 10, 24, 32; band outputs
of widths 8, 20, 30; concatenated width 58. -/
theorem C4_band_orchestrator_witness :
    mscfix.stream_sizes = (8, 20, 30) ∧ mscfix.ks = 2 * 2 + 1 ∧
    PadPFwf mscfix.low_postfilter (8 + 2) 1 1 1 2 ∧
    mscfix.low_postfilter.side = PadSide.left ∧
    PadPFwf mscfix.mid_postfilter (20 + 2 * 2) 1 1 1 2 ∧
    mscfix.mid_postfilter.side = PadSide.middle ∧
    PadPFwf mscfix.high_postfilter (30 + 2) 1 1 1 2 ∧
    mscfix.high_postfilter.side = PadSide.right ∧
    Rect3 (zq3 1 3 58) 1 3 (8 + 20 + 30) ∧
    (∃ out1 out2 out3,
      mscfix.low_postfilter.forward (takeCh (zq3 1 3 58) (8 + 2))
        (randn3 rngA 1 3 1 mscfix.scale) = Except.ok out1 ∧
      mscfix.mid_postfilter.forward (sliceCh (zq3 1 3 58) (8 - 2) (20 + 2 * 2))
        (randn3 rngA 1 3 1 mscfix.scale) = Except.ok out2 ∧
      mscfix.high_postfilter.forward (dropCh (zq3 1 3 58) (8 + 20 - 2))
        (randn3 rngA 1 3 1 mscfix.scale) = Except.ok out3 ∧
      Rect3 (randn3 rngA 1 3 1 mscfix.scale) 1 3 1 ∧
      Rect3 out1 1 3 8 ∧ Rect3 out2 1 3 20 ∧ Rect3 out3 1 3 30 ∧
      mscfix.forward rngA (zq3 1 3 58) Option.none =
        Except.ok (catFeat (catFeat out1 out2) out3) ∧
      Rect3 (catFeat (catFeat out1 out2) out3) 1 3 (8 + 20 + 30)) :=
  ⟨rfl, rfl, by decide, rfl, by decide, rfl, by decide, rfl, by decide,
    C4_band_orchestrator mscfix rngA (zq3 1 3 58) Option.none 1 3 8 20 30 2
      1 1 1 1 1 1 1 1 1 rfl rfl (by decide) rfl (by decide) rfl (by decide) rfl
      (by decide) (by decide) (by decide) (by decide) (by decide)⟩

/-- C1: evaluation of `MultistreamPostFilter.forward` with no per-stream
filters assigned.  On the 5-entry partition `[2, 1, 1, 2, 1]` the forward
pass raises (the source reassembly references the never-bound `vib` after
the unpacking clobbered `vuv` with the fifth stream), instead of returning
the input; on 4- and 6-entry partitions it returns the input exactly. -/
theorem C1_stream_identity_eval :
    MultistreamPostFilter.forward
        ⟨Option.none, Option.none, Option.none, [2, 1, 1, 2, 1], 2, 0⟩
        [[[1, 2, 3, 4, 5, 6, 7]]] Option.none =
      Except.error "NameError: name vib is not defined" ∧
    MultistreamPostFilter.forward
        ⟨Option.none, Option.none, Option.none, [3, 1, 1, 2], 2, 0⟩
        [[[1, 2, 3, 4, 5, 6, 7]]] Option.none =
      Except.ok [[[1, 2, 3, 4, 5, 6, 7]]] ∧
    MultistreamPostFilter.forward
        ⟨Option.none, Option.none, Option.none, [1, 1, 1, 2, 1, 1], 2, 0⟩
        [[[1, 2, 3, 4, 5, 6, 7]]] Option.none =
      Except.ok [[[1, 2, 3, 4, 5, 6, 7]]] :=
  ⟨rfl, rfl, rfl⟩

/-- C3 counterexample: constructing the 2-D filter with modulation enabled
(`use_tadn = true`) but noise injection disabled (`use_noise = false`) and
bin-wise noise succeeds — `Conv2dPostFilter.__init__` never checks
`use_noise` — contradicting the claim that every such combination raises. -/
theorem C3_counterexample :
    conv2dPFInit (some 5) [5, 5] false true "bin_wise" =
      Except.ok (some 5, NoiseType.bin_wise, false) := rfl

/-- C3 (amended): `Conv1dPostFilter.__init__` rejects modulation without
noise; `Conv2dPostFilter.__init__` rejects modulation with frame-wise noise
and modulation without `in_dim`, but does not check `use_noise`: the 2-D
filter with modulation, bin-wise noise and no noise injection constructs
without error. -/
theorem C3_construction_checks (d channels kernel_size : ℕ) (use_noise : Bool) :
    (conv1dPFInit (some d) channels kernel_size false true).isOk = false ∧
    (conv1dPFInit Option.none channels kernel_size false true).isOk = false ∧
    (conv2dPFInit (some d) [5, 5] use_noise true "frame_wise").isOk = false ∧
    (conv2dPFInit Option.none [5, 5] use_noise true "bin_wise").isOk = false ∧
    (conv2dPFInit (some d) [5, 5] false true "bin_wise").isOk = true :=
  ⟨rfl, rfl, rfl, rfl, rfl⟩

/-- C2 counterexample: for the middle ("none") band with kernel size 5
(reach `R = 2`), `_PadConv2dPostFilter.__init__` builds the reflection pad
tuple `(0, 0, 2, 2)` — no feature-axis padding at all — and applying that
pad to a `1 × 3 × 3` image leaves the feature width at 3, not the
`3 + 2 * 2` that symmetric feature-axis padding of width `R` would give. -/
theorem C2_counterexample :
    padConv2dInitPad "none" 5 = Except.ok (0, 0, 2, 2) ∧
    (((reflPad2d (padTupleOf PadSide.middle 2)
        [[[1, 2, 3], [4, 5, 6], [7, 8, 9]]]).headD []).headD []).length = 3 ∧
    ¬ (((reflPad2d (padTupleOf PadSide.middle 2)
        [[[1, 2, 3], [4, 5, 6], [7, 8, 9]]]).headD []).headD []).length = 3 + 2 * 2 := by
  refine ⟨rfl, rfl, ?_⟩
  decide

theorem take_len_append {α : Type} {l₁ l₂ : List α} {n : ℕ} (h : l₁.length = n) :
    (l₁ ++ l₂).take n = l₁ := by
  subst h; exact List.take_left l₁ l₂

theorem drop_len_append {α : Type} {l₁ l₂ : List α} {n : ℕ} (h : l₁.length = n) :
    (l₁ ++ l₂).drop n = l₂ := by
  subst h; exact List.drop_left l₁ l₂

/-- C2 (amended): directional edge handling of the Band-Tiled Residual
Filter: the "left" band adds `R` reflected columns on the low-index feature
edge only and trims `R` columns from the high-index edge of the raw input
after stage 1; "right" is the mirror image; the middle ("none") band adds
NO feature-axis padding (its input slice already carries `R` columns of
context from each neighbour) and trims both feature edges of the raw input
by `R`; time-axis reflection padding of width `R` is symmetric for every
band role. -/
theorem C2_directional_padding (p : ℕ) (hp : 0 < p) (v : Vec) (mm : Mat) :
    padTupleOf PadSide.left p = (p, 0, p, p) ∧
    padTupleOf PadSide.middle p = (0, 0, p, p) ∧
    padTupleOf PadSide.right p = (0, p, p, p) ∧
    (reflPadVec p 0 v).length = v.length + p ∧
    (reflPadVec p 0 v).drop p = v ∧
    (reflPadVec 0 p v).length = v.length + p ∧
    (reflPadVec 0 p v).take v.length = v ∧
    reflPadVec 0 0 v = v ∧
    trimFeatRow PadSide.left p v = v.take (v.length - p) ∧
    trimFeatRow PadSide.middle p v = (v.drop p).take (v.length - 2 * p) ∧
    trimFeatRow PadSide.right p v = v.drop p ∧
    (reflPadMat 0 0 p p mm).length = mm.length + 2 * p := by
  refine ⟨rfl, rfl, rfl, ?_, ?_, ?_, ?_, ?_, ?_, ?_, rfl, ?_⟩
  · rw [reflPadVec_len]; omega
  · show (_ ++ v ++ _).drop p = v
    simp only [reflPadVec, List.range_zero, List.map_nil, List.append_nil]
    exact drop_len_append (by simp)
  · rw [reflPadVec_len]; omega
  · show (_ ++ v ++ _).take v.length = v
    simp only [reflPadVec, List.range_zero, List.map_nil, List.nil_append]
    exact take_len_append rfl
  · simp [reflPadVec]
  · show trimFeatRow PadSide.left p v = _
    simp only [trimFeatRow]
    rw [if_neg (by omega)]
  · show trimFeatRow PadSide.middle p v = _
    simp only [trimFeatRow]
    rw [if_neg (by omega)]
  · simp only [reflPadMat]
    simp
    omega

/-- Witness for C2 (amended) at `R = 2`. -/
theorem C2_directional_padding_witness :
    0 < 2 ∧
    (padTupleOf PadSide.left 2 = (2, 0, 2, 2) ∧
    padTupleOf PadSide.middle 2 = (0, 0, 2, 2) ∧
    padTupleOf PadSide.right 2 = (0, 2, 2, 2) ∧
    (reflPadVec 2 0 [5, 6, 7]).length = [5, 6, 7].length + 2 ∧
    (reflPadVec 2 0 [5, 6, 7]).drop 2 = [5, 6, 7] ∧
    (reflPadVec 0 2 [5, 6, 7]).length = [5, 6, 7].length + 2 ∧
    (reflPadVec 0 2 [5, 6, 7]).take [5, 6, 7].length = [5, 6, 7] ∧
    reflPadVec 0 0 [5, 6, 7] = [5, 6, 7] ∧
    trimFeatRow PadSide.left 2 [5, 6, 7] = [5, 6, 7].take ([5, 6, 7].length - 2) ∧
    trimFeatRow PadSide.middle 2 [5, 6, 7] =
      ([5, 6, 7].drop 2).take ([5, 6, 7].length - 2 * 2) ∧
    trimFeatRow PadSide.right 2 [5, 6, 7] = [5, 6, 7].drop 2 ∧
    (reflPadMat 0 0 2 2 [[1], [2], [3]]).length = [[1], [2], [3]].length + 2 * 2) :=
  ⟨by decide, C2_directional_padding 2 (by decide) [5, 6, 7] [[1], [2], [3]]⟩

/-- C8: with noise injection disabled, the forward passes of
`Conv1dPostFilter` and `Conv2dPostFilter` are independent of the random
draw stream: two calls identical except for the stream produce identical
outputs (the noise draw, when made at all, is discarded). -/
theorem C8_noise_free_determinism (m1 : Conv1dPostFilter) (m2 : Conv2dPostFilter)
    (x : Ten3) (lengths : Option (List ℕ)) (rng1 rng2 : ℕ → ℚ)
    (h1 : m1.use_noise = false) (h2 : m2.use_noise = false) :
    m1.forward rng1 x lengths = m1.forward rng2 x lengths ∧
    m2.forward rng1 x lengths = m2.forward rng2 x lengths := by
  constructor
  · unfold Conv1dPostFilter.forward
    simp [h1]
  · unfold Conv2dPostFilter.forward
    simp [h2]

/-- Witness for C8: the concrete noise-free filters on a concrete input
under two different draw streams. -/
theorem C8_noise_free_determinism_witness :
    c1fix.use_noise = false ∧ c2fix.use_noise = false ∧
    (c1fix.forward rngA [[[1]]] Option.none = c1fix.forward rngB [[[1]]] Option.none ∧
     c2fix.forward rngA [[[1]]] Option.none = c2fix.forward rngB [[[1]]] Option.none) :=
  ⟨rfl, rfl, C8_noise_free_determinism c1fix c2fix [[[1]]] Option.none rngA rngB rfl rfl⟩

theorem applyWithOffset_lengths (l1 l2 : Option (List ℕ)) {pf : Option StreamFilter}
    {off : ℕ} {s : Ten3}
    (h : ∀ f, pf = some f → ∀ s' la lb, f s' la = f s' lb) :
    applyWithOffset pf off s l1 = applyWithOffset pf off s l2 := by
  cases pf with
  | none => rfl
  | some f =>
    show (if 0 < off then catFeat (takeCh s off) (f (dropCh s off) l1) else f s l1) =
      (if 0 < off then catFeat (takeCh s off) (f (dropCh s off) l2) else f s l2)
    by_cases hoff : 0 < off
    · rw [if_pos hoff, if_pos hoff, h f rfl (dropCh s off) l1 l2]
    · rw [if_neg hoff, if_neg hoff, h f rfl s l1 l2]

theorem applyLf0_lengths (l1 l2 : Option (List ℕ)) {pf : Option StreamFilter} {s : Ten3}
    (h : ∀ f, pf = some f → ∀ s' la lb, f s' la = f s' lb) :
    applyLf0 pf s l1 = applyLf0 pf s l2 := by
  cases pf with
  | none => rfl
  | some f => exact h f rfl s l1 l2

/-- C9: the `lengths` argument is accepted but never used for masking: every
filter's forward pass returns the same output for any two values of
`lengths` (for the stream orchestrator, provided its installed per-stream
filters ignore `lengths`, as all the filters in this file do). -/
theorem C9_lengths_ignored (m1 : Conv1dPostFilter) (m2 : Conv2dPostFilter)
    (m3 : MultistreamPostFilter) (m4 : MultistreamConv2dPostFilter)
    (rng : ℕ → ℚ) (x : Ten3) (l1 l2 : Option (List ℕ))
    (hmgc : ∀ f, m3.mgc_postfilter = some f → ∀ s la lb, f s la = f s lb)
    (hbap : ∀ f, m3.bap_postfilter = some f → ∀ s la lb, f s la = f s lb)
    (hlf0 : ∀ f, m3.lf0_postfilter = some f → ∀ s la lb, f s la = f s lb) :
    m1.forward rng x l1 = m1.forward rng x l2 ∧
    m2.forward rng x l1 = m2.forward rng x l2 ∧
    m3.forward x l1 = m3.forward x l2 ∧
    m4.forward rng x l1 = m4.forward rng x l2 := by
  refine ⟨rfl, rfl, ?_, rfl⟩
  unfold MultistreamPostFilter.forward
  rcases splitStreams x m3.stream_sizes with _ | ⟨a, _ | ⟨b, _ | ⟨c, _ | ⟨d, _ | ⟨e, _ | ⟨f, rest⟩⟩⟩⟩⟩⟩
  · rfl
  · rfl
  · rfl
  · rfl
  · simp only [applyWithOffset_lengths l1 l2 hmgc, applyWithOffset_lengths l1 l2 hbap,
      applyLf0_lengths l1 l2 hlf0]
  · rfl
  · cases rest with
    | nil =>
      simp only [applyWithOffset_lengths l1 l2 hmgc, applyWithOffset_lengths l1 l2 hbap,
        applyLf0_lengths l1 l2 hlf0]
    | cons g rest' => rfl

/-- Witness for C9: the concrete filters, a stream orchestrator with
identity stream filters, `lengths = none` versus a concrete vector. -/
theorem C9_lengths_ignored_witness :
    (∀ f, msfix.mgc_postfilter = some f → ∀ s la lb, f s la = f s lb) ∧
    (c1fix.forward rngA [[[1]]] Option.none = c1fix.forward rngA [[[1]]] (some [3]) ∧
     c2fix.forward rngA [[[1]]] Option.none = c2fix.forward rngA [[[1]]] (some [3]) ∧
     msfix.forward [[[1]]] Option.none = msfix.forward [[[1]]] (some [3]) ∧
     mscfix.forward rngA [[[1]]] Option.none = mscfix.forward rngA [[[1]]] (some [3])) :=
  ⟨fun f hf s la lb => by cases hf; rfl,
   C9_lengths_ignored c1fix c2fix msfix mscfix rngA [[[1]]] Option.none (some [3])
     (fun f hf s la lb => by cases hf; rfl)
     (fun f hf s la lb => by cases hf; rfl)
     (fun f hf s la lb => by cases hf; rfl)⟩

theorem rangeMap_getD {α : Type} (g : ℕ → α) (n i : ℕ) (d : α) (h : i < n) :
    ((List.range n).map g).getD i d = g i := by
  rw [List.getD_eq_getElem _ _ (by simpa using h)]
  simp

theorem mapRow_rect {g : ℚ → ℚ} {m : Mat} {T C : ℕ} (h : RectM m T C) :
    RectM (m.map (fun r => r.map g)) T C := by
  refine ⟨by simp [h.1], ?_⟩
  intro r hr
  simp only [List.mem_map] at hr
  obtain ⟨r0, hr0, rfl⟩ := hr
  simp [h.2 _ hr0]

theorem tadn_forward_ok (td : SimplifiedTADN) (z c : Ten3) {B C T q : ℕ}
    (hwf : TadnWf td C q) (hC : 0 < C) (hz : Rect3 z B C T) (hc : Rect3 c B C T) :
    td.forward z c = Except.ok (List.zipWith (fun zb cb =>
      mulM zb ((dwConv td.gw td.gb ((td.ks - 1) / 2) cb).map
        (fun r => r.map td.sigmoid))) z c) := by
  unfold SimplifiedTADN.forward
  rw [if_pos]
  simp only [List.all_eq_true, decide_eq_true_eq]
  intro cb hcb
  rw [(hc.2 _ hcb).1, hwf.2.1.1]

theorem dwConv_rect_T (td : SimplifiedTADN) {cb : Mat} {C T q : ℕ}
    (hwf : TadnWf td C q) (hC : 0 < C) (hcb : RectM cb C T) :
    RectM (dwConv td.gw td.gb ((td.ks - 1) / 2) cb) C T := by
  obtain ⟨hks, hgw, hgb⟩ := hwf
  have h0 := dwConv_rect td.gb ((td.ks - 1) / 2) hgw hC hcb
  rwa [show T + 2 * ((td.ks - 1) / 2) + 1 - td.ks = T by omega] at h0

theorem tadn_out_rect (td : SimplifiedTADN) (z c : Ten3) {B C T q : ℕ}
    (hwf : TadnWf td C q) (hC : 0 < C) (hz : Rect3 z B C T) (hc : Rect3 c B C T) :
    Rect3 (List.zipWith (fun zb cb =>
      mulM zb ((dwConv td.gw td.gb ((td.ks - 1) / 2) cb).map
        (fun r => r.map td.sigmoid))) z c) B C T := by
  refine ⟨by simp [hz.1, hc.1], ?_⟩
  refine zipWith_forall (fun zb hzb cb hcb => ?_)
  exact mulM_rect (hz.2 _ hzb) (mapRow_rect (dwConv_rect_T td hwf hC (hc.2 _ hcb)))

theorem tadn_cells (td : SimplifiedTADN) (z c : Ten3) {B C T q : ℕ}
    (hwf : TadnWf td C q) (hC : 0 < C) (hz : Rect3 z B C T) (hc : Rect3 c B C T)
    {b ch t : ℕ} (hb : b < B) (hch : ch < C) (ht : t < T) :
    cellOf (List.zipWith (fun zb cb =>
      mulM zb ((dwConv td.gw td.gb ((td.ks - 1) / 2) cb).map
        (fun r => r.map td.sigmoid))) z c) b ch t = tadnSpecCell td z c b ch t := by
  have hbz : b < z.length := by rw [hz.1]; exact hb
  have hbc : b < c.length := by rw [hc.1]; exact hb
  have hzb : RectM (z.getD b []) C T := by
    rw [List.getD_eq_getElem _ _ hbz]; exact hz.2 _ (List.getElem_mem hbz)
  have hcb : RectM (c.getD b []) C T := by
    rw [List.getD_eq_getElem _ _ hbc]; exact hc.2 _ (List.getElem_mem hbc)
  have hdw : RectM (dwConv td.gw td.gb ((td.ks - 1) / 2) (c.getD b [])) C T :=
    dwConv_rect_T td hwf hC hcb
  unfold cellOf
  rw [zipWith_getD _ z c [] [] [] b hbz hbc]
  have hchz : ch < (z.getD b []).length := by rw [hzb.1]; exact hch
  have hchG : ch < ((dwConv td.gw td.gb ((td.ks - 1) / 2) (c.getD b [])).map
      (fun r => r.map td.sigmoid)).length := by
    rw [List.length_map, hdw.1]; exact hch
  unfold mulM
  rw [zipWith_getD _ _ _ [] [] [] ch hchz hchG]
  have htz : t < ((z.getD b []).getD ch []).length := by
    rw [List.getD_eq_getElem _ _ hchz, hzb.2 _ (List.getElem_mem hchz)]; exact ht
  have hrowG : ((dwConv td.gw td.gb ((td.ks - 1) / 2) (c.getD b [])).map
      (fun r => r.map td.sigmoid)).getD ch [] =
      ((dwConv td.gw td.gb ((td.ks - 1) / 2) (c.getD b [])).getD ch []).map td.sigmoid :=
    map_getD _ _ [] ch
  have htG : t < (((dwConv td.gw td.gb ((td.ks - 1) / 2) (c.getD b [])).getD ch
      []).map td.sigmoid).length := by
    rw [List.length_map]
    have hchd : ch < (dwConv td.gw td.gb ((td.ks - 1) / 2) (c.getD b [])).length := by
      rw [hdw.1]; exact hch
    rw [List.getD_eq_getElem _ _ hchd, hdw.2 _ (List.getElem_mem hchd)]
    exact ht
  rw [hrowG]
  rw [zipWith_getD _ _ _ 0 0 0 t htz htG]
  obtain ⟨hks, hgw, hgb⟩ := hwf
  have hchw : ch < td.gw.length := by rw [hgw.1]; exact hch
  have hrange : (((c.getD b []).headD []).length + 2 * ((td.ks - 1) / 2) + 1 -
      ((td.gw.headD []).headD []).length) = T := by
    rw [hcb.hlen hC, hgw.head_head_len hC (by norm_num)]
    omega
  have hMrow : (dwConv td.gw td.gb ((td.ks - 1) / 2) (c.getD b [])).getD ch [] =
      (List.range T).map (fun (t : ℕ) => td.gb.getD ch 0 +
        ((List.range (((td.gw.getD ch []).headD []).length)).map (fun (k : ℕ) =>
          ((td.gw.getD ch []).headD []).getD k 0 *
            vget ((c.getD b []).getD ch [])
              ((t : ℤ) + (k : ℤ) - (((td.ks - 1) / 2 : ℕ) : ℤ)))).sum) := by
    unfold dwConv
    rw [rangeMap_getD _ _ _ _ hchw, hrange]
  rw [hMrow, List.map_map, rangeMap_getD _ _ _ _ ht]
  rfl

/-- C6: on inputs `z`, `c` of identical shape `(B, C, T)` matching the
modulator's channel count, `SimplifiedTADN.forward` succeeds and returns
`z` multiplied elementwise by the logistic squashing of the depthwise
(channel-independent) convolution of `c`, whose time length equals the
input's for the odd kernel `2q + 1` with padding `(ks - 1) / 2`; the output
has the same shape as `z`. -/
theorem C6_tadn_modulator (td : SimplifiedTADN) (z c : Ten3) (B C T q : ℕ)
    (hwf : TadnWf td C q) (hC : 0 < C) (hz : Rect3 z B C T) (hc : Rect3 c B C T) :
    ∃ out, td.forward z c = Except.ok out ∧ Rect3 out B C T ∧
      ∀ b ch t, b < B → ch < C → t < T →
        cellOf out b ch t = tadnSpecCell td z c b ch t :=
  ⟨_, tadn_forward_ok td z c hwf hC hz hc, tadn_out_rect td z c hwf hC hz hc,
   fun _ _ _ hb hch ht => tadn_cells td z c hwf hC hz hc hb hch ht⟩

/-- Witness for C6: the concrete modulator on `z = [[[3, 0]]]`,
`c = [[[1, 2]]]`. -/
theorem C6_tadn_modulator_witness :
    TadnWf tadfix 1 1 ∧ 0 < 1 ∧
    Rect3 [[[3, 0]]] 1 1 2 ∧ Rect3 [[[1, 2]]] 1 1 2 ∧
    (∃ out, tadfix.forward [[[3, 0]]] [[[1, 2]]] = Except.ok out ∧
      Rect3 out 1 1 2 ∧
      ∀ b ch t, b < 1 → ch < 1 → t < 2 →
        cellOf out b ch t = tadnSpecCell tadfix [[[3, 0]]] [[[1, 2]]] b ch t) :=
  ⟨by decide, by decide, by decide, by decide,
   C6_tadn_modulator tadfix [[[3, 0]]] [[[1, 2]]] 1 1 2 1
     (by decide) (by decide) (by decide) (by decide)⟩

/-- C10: the Noise Modulator can only attenuate, never amplify: when the
squashing function takes values strictly inside `(0, 1)` (as the logistic
does), every output cell's absolute value is at most the corresponding
noise cell's, with equality exactly when that noise cell is zero. -/
theorem C10_tadn_attenuation (td : SimplifiedTADN) (z c : Ten3) (B C T q : ℕ)
    (hsig : ∀ u : ℚ, 0 < td.sigmoid u ∧ td.sigmoid u < 1)
    (hwf : TadnWf td C q) (hC : 0 < C) (hz : Rect3 z B C T) (hc : Rect3 c B C T)
    (out : Ten3) (hout : td.forward z c = Except.ok out) :
    ∀ b ch t, b < B → ch < C → t < T →
      |cellOf out b ch t| ≤ |cellOf z b ch t| ∧
      (|cellOf out b ch t| = |cellOf z b ch t| ↔ cellOf z b ch t = 0) := by
  intro b ch t hb hch ht
  have heq := tadn_forward_ok td z c hwf hC hz hc
  rw [hout] at heq
  obtain rfl : out = _ := Except.ok.inj heq
  rw [tadn_cells td z c hwf hC hz hc hb hch ht]
  unfold tadnSpecCell
  obtain ⟨hs0, hs1⟩ := hsig (td.gb.getD ch 0 +
    ((List.range (((td.gw.getD ch []).headD []).length)).map (fun (k : ℕ) =>
      ((td.gw.getD ch []).headD []).getD k 0 *
        vget ((c.getD b []).getD ch [])
          ((t : ℤ) + (k : ℤ) - (((td.ks - 1) / 2 : ℕ) : ℤ)))).sum)
  set s := td.sigmoid (td.gb.getD ch 0 +
    ((List.range (((td.gw.getD ch []).headD []).length)).map (fun (k : ℕ) =>
      ((td.gw.getD ch []).headD []).getD k 0 *
        vget ((c.getD b []).getD ch [])
          ((t : ℤ) + (k : ℤ) - (((td.ks - 1) / 2 : ℕ) : ℤ)))).sum) with hs
  set zc := cellOf z b ch t with hzc
  have habs : |zc * s| = |zc| * s := by
    rw [abs_mul, abs_of_pos hs0]
  constructor
  · rw [habs]
    exact mul_le_of_le_one_right (abs_nonneg _) hs1.le
  · constructor
    · intro h
      by_contra hz0
      have hpos : 0 < |zc| := abs_pos.mpr hz0
      have : |zc| * s < |zc| := by
        calc |zc| * s < |zc| * 1 := by
              exact mul_lt_mul_of_pos_left hs1 hpos
          _ = |zc| := mul_one _
      rw [habs] at h
      exact absurd h (ne_of_lt this)
    · intro h
      rw [h, zero_mul, abs_zero]

/-- Witness for C10: the concrete modulator (constant `1/2` squashing) on
`z = [[[3, 0]]]`, `c = [[[1, 2]]]`. -/
theorem C10_tadn_attenuation_witness :
    (∀ u : ℚ, 0 < tadfix.sigmoid u ∧ tadfix.sigmoid u < 1) ∧
    TadnWf tadfix 1 1 ∧ 0 < 1 ∧
    Rect3 [[[3, 0]]] 1 1 2 ∧ Rect3 [[[1, 2]]] 1 1 2 ∧
    (∃ out, tadfix.forward [[[3, 0]]] [[[1, 2]]] = Except.ok out ∧
      ∀ b ch t, b < 1 → ch < 1 → t < 2 →
        |cellOf out b ch t| ≤ |cellOf [[[3, 0]]] b ch t| ∧
        (|cellOf out b ch t| = |cellOf [[[3, 0]]] b ch t| ↔
          cellOf [[[3, 0]]] b ch t = 0)) :=
  ⟨fun _ => ⟨show (0 : ℚ) < 1 / 2 by norm_num, show (1 / 2 : ℚ) < 1 by norm_num⟩,
   by decide, by decide, by decide, by decide,
   ⟨_, @tadn_forward_ok tadfix [[[3, 0]]] [[[1, 2]]] 1 1 2 1 (by decide) (by decide)
        (by decide) (by decide),
    fun b ch t hb hch ht =>
      C10_tadn_attenuation tadfix [[[3, 0]]] [[[1, 2]]] 1 1 2 1
        (fun _ => ⟨show (0 : ℚ) < 1 / 2 by norm_num, show (1 / 2 : ℚ) < 1 by norm_num⟩)
        (by decide) (by decide) (by decide) (by decide) _
        (@tadn_forward_ok tadfix [[[3, 0]]] [[[1, 2]]] 1 1 2 1 (by decide) (by decide)
          (by decide) (by decide)) b ch t hb hch ht⟩⟩

theorem enum_snd_mem {α : Type} {l : List α} {x : ℕ × α} (h : x ∈ l.enum) : x.2 ∈ l := by
  rw [List.mem_enum_iff_getElem?] at h
  exact List.getElem?_mem h

theorem randnLike3_rect {rng : ℕ → ℚ} {s : ℚ} {x : Ten3} {B C T : ℕ}
    (h : Rect3 x B C T) : Rect3 (randnLike3 rng s x) B C T := by
  refine ⟨by unfold randnLike3; rw [List.length_map, List.enum_length, h.1], ?_⟩
  intro m hm
  unfold randnLike3 at hm
  simp only [List.mem_map] at hm
  obtain ⟨bm, hbm, rfl⟩ := hm
  have hmem := enum_snd_mem hbm
  refine ⟨by rw [List.length_map, List.enum_length, (h.2 _ hmem).1], ?_⟩
  intro r hr
  simp only [List.mem_map] at hr
  obtain ⟨tr, htr, rfl⟩ := hr
  rw [List.length_map, List.enum_length, (h.2 _ hmem).2 _ (enum_snd_mem htr)]

/-- C7 (amended to the single-channel streams the filter accepts): on a
`(B, T, 1)` input, `Conv1dPostFilter.forward` runs four convolution stages
along the time axis, stage 1 consuming the original transposed input
(concatenated with the per-call noise field when noise injection is
enabled) and stages 2-4 each consuming the concatenation of the original
transposed input with the previous stage's output, ReLU after stages 1-3,
stage 4 producing a single-channel residual, and returns input + residual
with output shape equal to input shape. -/
theorem C7_conv1d_pipeline (m : Conv1dPostFilter) (rng : ℕ → ℚ) (x : Ten3)
    (lengths : Option (List ℕ)) (B T C C2 C3 p : ℕ)
    (hwf : Conv1dPFwf m C C2 C3 p) (htd : TadnOk m.tadn 1)
    (hx : Rect3 x B T 1) (hT : 0 < T) :
    ∃ noise, m.forward rng x lengths = Except.ok (conv1dSpecStages m x noise) ∧
      (m.use_noise = false → noise = Option.none) ∧
      (m.use_noise = true → ∃ zz, noise = some zz ∧ Rect3 zz B 1 T) ∧
      Rect3 (conv1dSpecStages m x noise) B T 1 := by
  obtain ⟨hks, hC, hC2, hC3, hw1, hb1, hw2, hb2, hw3, hb3, hw4, hb4⟩ := hwf
  have hpp : (m.ks - 1) / 2 = p := by omega
  have hTT : T + 2 * p + 1 - m.ks = T := by omega
  have hxT : Rect3 (transpose12 x) B 1 T := transpose12_rect hx hT
  -- the two stage-1 variants
  cases hn : m.use_noise with
  | false =>
    rw [hn] at hw1
    simp only [Bool.false_eq_true, if_false] at hw1
    have hc1 := conv1dB_ok m.mode m.b1 p hw1 hC (by norm_num) hxT
    have hy1 := conv1dU_rect m.mode m.b1 p hw1 hC (by norm_num) hxT
    rw [hTT] at hy1
    have hcat2 := catDim1_rect hxT (relu3_rect hy1)
    rw [Nat.add_comm 1 C] at hcat2
    have hc2 := conv1dB_ok m.mode m.b2 p hw2 hC2 (by omega) hcat2
    have hy2 := conv1dU_rect m.mode m.b2 p hw2 hC2 (by omega) hcat2
    rw [hTT] at hy2
    have hcat3 := catDim1_rect hxT (relu3_rect hy2)
    rw [Nat.add_comm 1 C2] at hcat3
    have hc3 := conv1dB_ok m.mode m.b3 p hw3 hC3 (by omega) hcat3
    have hy3 := conv1dU_rect m.mode m.b3 p hw3 hC3 (by omega) hcat3
    rw [hTT] at hy3
    have hcat4 := catDim1_rect hxT (relu3_rect hy3)
    rw [Nat.add_comm 1 C3] at hcat4
    have hc4 := conv1dB_ok m.mode m.b4 p hw4 (by norm_num) (by omega) hcat4
    have hy4 := conv1dU_rect m.mode m.b4 p hw4 (by norm_num) (by omega) hcat4
    rw [hTT] at hy4
    refine ⟨Option.none, ?_, fun _ => rfl, fun htr => absurd htr (by simp), ?_⟩
    · unfold Conv1dPostFilter.forward
      simp only [conv1dSpecStages, hpp, hn, Bool.false_eq_true, if_false]
      rw [hc1, okBind, hc2, okBind, hc3, okBind, hc4, okBind]
      rfl
    · simp only [conv1dSpecStages, hpp]
      exact transpose12_rect (bAdd3_rect hxT hy4) (by norm_num)
  | true =>
    rw [hn] at hw1
    simp only [if_true] at hw1
    have hz : Rect3 (randnLike3 rng m.scale (transpose12 x)) B 1 T :=
      randnLike3_rect hxT
    -- the (possibly modulated) noise field actually used by stage 1
    have hmain : ∀ z' : Ten3, Rect3 z' B 1 T →
        Except.ok z' >>= (fun z2 => conv1dB m.mode m.w1 m.b1 p
          (catDim1 (transpose12 x) z2)) >>= (fun y =>
            (conv1dB m.mode m.w2 m.b2 p (catDim1 (transpose12 x) (relu3 y))) >>= fun y =>
            (conv1dB m.mode m.w3 m.b3 p (catDim1 (transpose12 x) (relu3 y))) >>= fun y =>
            (conv1dB m.mode m.w4 m.b4 p (catDim1 (transpose12 x) (relu3 y))) >>= fun residual =>
            pure (transpose12 (bAdd3 (transpose12 x) residual))) =
          Except.ok (conv1dSpecStages m x (some z')) ∧
        Rect3 (conv1dSpecStages m x (some z')) B T 1 := by
      intro z' hz'
      have hcat1 := catDim1_rect hxT hz'
      have hc1 := conv1dB_ok m.mode m.b1 p hw1 hC (by norm_num) hcat1
      have hy1 := conv1dU_rect m.mode m.b1 p hw1 hC (by norm_num) hcat1
      rw [hTT] at hy1
      have hcat2 := catDim1_rect hxT (relu3_rect hy1)
      rw [Nat.add_comm 1 C] at hcat2
      have hc2 := conv1dB_ok m.mode m.b2 p hw2 hC2 (by omega) hcat2
      have hy2 := conv1dU_rect m.mode m.b2 p hw2 hC2 (by omega) hcat2
      rw [hTT] at hy2
      have hcat3 := catDim1_rect hxT (relu3_rect hy2)
      rw [Nat.add_comm 1 C2] at hcat3
      have hc3 := conv1dB_ok m.mode m.b3 p hw3 hC3 (by omega) hcat3
      have hy3 := conv1dU_rect m.mode m.b3 p hw3 hC3 (by omega) hcat3
      rw [hTT] at hy3
      have hcat4 := catDim1_rect hxT (relu3_rect hy3)
      rw [Nat.add_comm 1 C3] at hcat4
      have hc4 := conv1dB_ok m.mode m.b4 p hw4 (by norm_num) (by omega) hcat4
      have hy4 := conv1dU_rect m.mode m.b4 p hw4 (by norm_num) (by omega) hcat4
      rw [hTT] at hy4
      constructor
      · rw [okBind, hc1, okBind, hc2, okBind, hc3, okBind, hc4, okBind]
        simp only [conv1dSpecStages, hpp]
        rfl
      · simp only [conv1dSpecStages, hpp]
        exact transpose12_rect (bAdd3_rect hxT hy4) (by norm_num)
    cases htdv : m.tadn with
    | none =>
      obtain ⟨heq, hrect⟩ := hmain (randnLike3 rng m.scale (transpose12 x)) hz
      refine ⟨some (randnLike3 rng m.scale (transpose12 x)), ?_,
        fun hf => absurd hf (by simp), fun _ => ⟨_, rfl, hz⟩, hrect⟩
      unfold Conv1dPostFilter.forward
      simp only [hpp, hn, if_true, htdv]
      exact heq
    | some td =>
      rw [htdv] at htd
      rw [show TadnOk (some td) 1 = ∃ q, TadnWf td 1 q from rfl] at htd
      obtain ⟨q, htdwf⟩ := htd
      have htok := tadn_forward_ok td (randnLike3 rng m.scale (transpose12 x))
        (transpose12 x) htdwf (by norm_num) hz hxT
      have hzrect := tadn_out_rect td (randnLike3 rng m.scale (transpose12 x))
        (transpose12 x) htdwf (by norm_num) hz hxT
      obtain ⟨heq, hrect⟩ := hmain _ hzrect
      refine ⟨some _, ?_, fun hf => absurd hf (by simp),
        fun _ => ⟨_, rfl, hzrect⟩, hrect⟩
      unfold Conv1dPostFilter.forward
      simp only [hpp, hn, if_true, htdv]
      rw [htok]
      exact heq

/-- Witness for C7 (amended): the concrete noise-free single-channel filter
on a `(1, 1, 1)` input. -/
theorem C7_conv1d_pipeline_witness :
    Conv1dPFwf c1fix 1 1 1 1 ∧ TadnOk c1fix.tadn 1 ∧ Rect3 [[[1]]] 1 1 1 ∧ 0 < 1 ∧
    (∃ noise, c1fix.forward rngA [[[1]]] Option.none =
        Except.ok (conv1dSpecStages c1fix [[[1]]] noise) ∧
      (c1fix.use_noise = false → noise = Option.none) ∧
      (c1fix.use_noise = true → ∃ zz, noise = some zz ∧ Rect3 zz 1 1 1) ∧
      Rect3 (conv1dSpecStages c1fix [[[1]]] noise) 1 1 1) :=
  ⟨by decide, trivial, by decide, by decide,
   C7_conv1d_pipeline c1fix rngA [[[1]]] Option.none 1 1 1 1 1 1
     (by decide) trivial (by decide) (by decide)⟩

/-- C7 counterexample: on an input whose stream has 2 channels the forward
pass fails with a channel mismatch (stage 1 expects a single-channel
stream), so the claim's "for every input of shape (batch, time, channels)"
does not hold as stated. -/
theorem C7_counterexample :
    Conv1dPostFilter.forward c1fix rngA [[[1, 2]]] Option.none =
      Except.error "Conv1d: channel mismatch" := by decide

theorem applyWithOffset_rect {pf : Option StreamFilter} {off : ℕ} {s : Ten3}
    {lengths : Option (List ℕ)} {B T C : ℕ} (hpf : WidthPresOpt pf)
    (hs : Rect3 s B T C) (hoff : off ≤ C) :
    Rect3 (applyWithOffset pf off s lengths) B T C := by
  cases pf with
  | none => exact hs
  | some f =>
    have hf : WidthPres f := hpf
    show Rect3 (if 0 < off then catFeat (takeCh s off) (f (dropCh s off) lengths)
      else f s lengths) B T C
    by_cases h0 : 0 < off
    · rw [if_pos h0]
      have h1 : Rect3 (takeCh s off) B T off := by
        have h' := takeCh_rect off hs
        rwa [Nat.min_eq_left hoff] at h'
      have h2 : Rect3 (f (dropCh s off) lengths) B T (C - off) :=
        hf _ _ _ _ _ (dropCh_rect off hs)
      have h3 := catFeat_rect h1 h2
      rwa [show off + (C - off) = C by omega] at h3
    · rw [if_neg h0]
      exact hf _ _ _ _ _ hs

theorem applyLf0_rect {pf : Option StreamFilter} {s : Ten3}
    {lengths : Option (List ℕ)} {B T C : ℕ} (hpf : WidthPresOpt pf)
    (hs : Rect3 s B T C) : Rect3 (applyLf0 pf s lengths) B T C := by
  cases pf with
  | none => exact hs
  | some f => exact (hpf : WidthPres f) _ _ _ _ _ hs

theorem applyWithOffset_row_take {pf : Option StreamFilter} {off : ℕ} {s : Ten3}
    {lengths : Option (List ℕ)} {B T C : ℕ} (hpf : WidthPresOpt pf)
    (hs : Rect3 s B T C) (hoff : off ≤ C) {b t : ℕ} (hb : b < B) (ht : t < T) :
    (rowOf (applyWithOffset pf off s lengths) b t).take off =
      (rowOf s b t).take off := by
  cases pf with
  | none => rfl
  | some f =>
    have hf : WidthPres f := hpf
    show (rowOf (if 0 < off then catFeat (takeCh s off) (f (dropCh s off) lengths)
      else f s lengths) b t).take off = (rowOf s b t).take off
    by_cases h0 : 0 < off
    · rw [if_pos h0]
      have h1 : Rect3 (takeCh s off) B T off := by
        have h' := takeCh_rect off hs
        rwa [Nat.min_eq_left hoff] at h'
      have h2 : Rect3 (f (dropCh s off) lengths) B T (C - off) :=
        hf _ _ _ _ _ (dropCh_rect off hs)
      rw [rowOf_catFeat h1 h2 hb ht]
      rw [take_len_append (rowOf_len h1 hb ht), rowOf_takeCh]
    · rw [if_neg h0]
      have h1 : off = 0 := by omega
      simp [h1]

/-- C5: for a configured MGC offset and BAP offset, any successful
`MultistreamPostFilter.forward` pass leaves the first `mgc_offset` channels
of the MGC stream (the first stream, at channel positions `[0, s0)`) and
the first `bap_offset` channels of the BAP stream (the fourth stream, at
channel positions from `s0 + s1 + s2`) bit-for-bit equal to the input, for
any shape-preserving assigned filters.  (With a 5-entry partition the
forward pass never succeeds, so the hypothesis `hout` covers it vacuously.) -/
theorem C5_offset_preservation (m : MultistreamPostFilter) (x out : Ten3)
    (lengths : Option (List ℕ)) (B T C s0 s1 s2 s3 : ℕ) (rest : List ℕ)
    (hsz : m.stream_sizes = s0 :: s1 :: s2 :: s3 :: rest)
    (hC : C = s0 + s1 + s2 + s3 + rest.sum)
    (hx : Rect3 x B T C)
    (hmgc : WidthPresOpt m.mgc_postfilter) (hbap : WidthPresOpt m.bap_postfilter)
    (hlf0 : WidthPresOpt m.lf0_postfilter)
    (ho1 : m.mgc_offset ≤ s0) (ho2 : m.bap_offset ≤ s3)
    (hout : m.forward x lengths = Except.ok out) :
    ∀ b t, b < B → t < T →
      (rowOf out b t).take m.mgc_offset = (rowOf x b t).take m.mgc_offset ∧
      ((rowOf out b t).drop (s0 + s1 + s2)).take m.bap_offset =
        ((rowOf x b t).drop (s0 + s1 + s2)).take m.bap_offset := by
  intro b t hb ht
  unfold MultistreamPostFilter.forward at hout
  rw [hsz] at hout
  simp only [splitStreams, splitFrom, Nat.zero_add] at hout
  have hA0 : Rect3 (sliceCh x 0 s0) B T s0 := by
    have h' := sliceCh_rect 0 s0 hx
    rwa [show min s0 (C - 0) = s0 by omega] at h'
  have hL0 : Rect3 (sliceCh x s0 s1) B T s1 := by
    have h' := sliceCh_rect s0 s1 hx
    rwa [show min s1 (C - s0) = s1 by omega] at h'
  have hV0 : Rect3 (sliceCh x (s0 + s1) s2) B T s2 := by
    have h' := sliceCh_rect (s0 + s1) s2 hx
    rwa [show min s2 (C - (s0 + s1)) = s2 by omega] at h'
  have hB0 : Rect3 (sliceCh x (s0 + s1 + s2) s3) B T s3 := by
    have h' := sliceCh_rect (s0 + s1 + s2) s3 hx
    rwa [show min s3 (C - (s0 + s1 + s2)) = s3 by omega] at h'
  have hA : Rect3 (applyWithOffset m.mgc_postfilter m.mgc_offset
      (sliceCh x 0 s0) lengths) B T s0 := applyWithOffset_rect hmgc hA0 ho1
  have hL : Rect3 (applyLf0 m.lf0_postfilter (sliceCh x s0 s1) lengths) B T s1 :=
    applyLf0_rect hlf0 hL0
  have hB : Rect3 (applyWithOffset m.bap_postfilter m.bap_offset
      (sliceCh x (s0 + s1 + s2) s3) lengths) B T s3 :=
    applyWithOffset_rect hbap hB0 ho2
  have htake1 : (rowOf (applyWithOffset m.mgc_postfilter m.mgc_offset
      (sliceCh x 0 s0) lengths) b t).take m.mgc_offset =
      (rowOf x b t).take m.mgc_offset := by
    rw [applyWithOffset_row_take hmgc hA0 ho1 hb ht, rowOf_sliceCh, List.drop_zero,
      List.take_take, Nat.min_eq_left ho1]
  have htake2 : (rowOf (applyWithOffset m.bap_postfilter m.bap_offset
      (sliceCh x (s0 + s1 + s2) s3) lengths) b t).take m.bap_offset =
      ((rowOf x b t).drop (s0 + s1 + s2)).take m.bap_offset := by
    rw [applyWithOffset_row_take hbap hB0 ho2 hb ht, rowOf_sliceCh,
      List.take_take, Nat.min_eq_left ho2]
  rcases rest with _ | ⟨s4, _ | ⟨s5, _ | ⟨s6, rest3⟩⟩⟩
  · -- 4-stream arm
    have heq := Except.ok.inj hout
    subst heq
    rw [rowOf_catFeat (catFeat_rect (catFeat_rect hA hL) hV0) hB hb ht,
      rowOf_catFeat (catFeat_rect hA hL) hV0 hb ht,
      rowOf_catFeat hA hL hb ht]
    constructor
    · rw [List.take_append_of_le_length (by
        rw [List.length_append, List.length_append, rowOf_len hA hb ht]; omega),
        List.take_append_of_le_length (by
        rw [List.length_append, rowOf_len hA hb ht]; omega),
        List.take_append_of_le_length (by rw [rowOf_len hA hb ht]; omega)]
      exact htake1
    · rw [drop_len_append (by
        rw [List.length_append, List.length_append, rowOf_len hA hb ht,
          rowOf_len hL hb ht, rowOf_len hV0 hb ht])]
      exact htake2
  · -- 5-stream arm: the forward pass raises, contradicting hout
    exact Except.noConfusion hout
  · -- 6-stream arm
    have hVib : Rect3 (sliceCh x (s0 + s1 + s2 + s3) s4) B T s4 := by
      have h' := sliceCh_rect (s0 + s1 + s2 + s3) s4 hx
      have hsum : C = s0 + s1 + s2 + s3 + (s4 + s5) := by
        simp only [List.sum_cons, List.sum_nil] at hC; omega
      rwa [show min s4 (C - (s0 + s1 + s2 + s3)) = s4 by omega] at h'
    have hVibf : Rect3 (sliceCh x (s0 + s1 + s2 + s3 + s4) s5) B T s5 := by
      have h' := sliceCh_rect (s0 + s1 + s2 + s3 + s4) s5 hx
      have hsum : C = s0 + s1 + s2 + s3 + (s4 + s5) := by
        simp only [List.sum_cons, List.sum_nil] at hC; omega
      rwa [show min s5 (C - (s0 + s1 + s2 + s3 + s4)) = s5 by omega] at h'
    have heq := Except.ok.inj hout
    subst heq
    rw [rowOf_catFeat (catFeat_rect (catFeat_rect (catFeat_rect (catFeat_rect hA hL)
        hV0) hB) hVib) hVibf hb ht,
      rowOf_catFeat (catFeat_rect (catFeat_rect (catFeat_rect hA hL) hV0) hB) hVib hb ht,
      rowOf_catFeat (catFeat_rect (catFeat_rect hA hL) hV0) hB hb ht,
      rowOf_catFeat (catFeat_rect hA hL) hV0 hb ht,
      rowOf_catFeat hA hL hb ht]
    constructor
    · rw [List.take_append_of_le_length (by
        rw [List.length_append, List.length_append, List.length_append,
          List.length_append, rowOf_len hA hb ht]; omega),
        List.take_append_of_le_length (by
        rw [List.length_append, List.length_append, List.length_append,
          rowOf_len hA hb ht]; omega),
        List.take_append_of_le_length (by
        rw [List.length_append, List.length_append, rowOf_len hA hb ht]; omega),
        List.take_append_of_le_length (by
        rw [List.length_append, rowOf_len hA hb ht]; omega),
        List.take_append_of_le_length (by rw [rowOf_len hA hb ht]; omega)]
      exact htake1
    · have hX : ((rowOf (applyWithOffset m.mgc_postfilter m.mgc_offset
          (sliceCh x 0 s0) lengths) b t ++
          rowOf (applyLf0 m.lf0_postfilter (sliceCh x s0 s1) lengths) b t) ++
          rowOf (sliceCh x (s0 + s1) s2) b t).length = s0 + s1 + s2 := by
        rw [List.length_append, List.length_append, rowOf_len hA hb ht,
          rowOf_len hL hb ht, rowOf_len hV0 hb ht]
      rw [List.append_assoc, List.append_assoc, drop_len_append hX,
        List.take_append_of_le_length (by rw [rowOf_len hB hb ht]; omega)]
      exact htake2
  · -- seven or more streams: the forward pass raises
    exact Except.noConfusion hout

theorem zeroFilter_widthPres : WidthPres zeroFilter := by
  intro s l B T C h
  refine ⟨by simp [zeroFilter, h.1], ?_⟩
  intro mm hm
  simp only [zeroFilter, List.mem_map] at hm
  obtain ⟨m0, hm0, rfl⟩ := hm
  exact mapRow_rect (h.2 _ hm0)

/-- Witness for C5: partition `[3, 1, 1, 2]` with MGC offset 2 and BAP
offset 1, stream filters that zero every cell: the output keeps the first
two MGC channels and the first BAP channel bit-for-bit. -/
theorem C5_offset_preservation_witness :
    msfix2.stream_sizes = 3 :: 1 :: 1 :: 2 :: [] ∧
    (7 : ℕ) = 3 + 1 + 1 + 2 + List.sum [] ∧
    Rect3 [[[1, 2, 3, 4, 5, 6, 7]]] 1 1 7 ∧
    WidthPresOpt msfix2.mgc_postfilter ∧ WidthPresOpt msfix2.bap_postfilter ∧
    WidthPresOpt msfix2.lf0_postfilter ∧
    msfix2.mgc_offset ≤ 3 ∧ msfix2.bap_offset ≤ 2 ∧
    msfix2.forward [[[1, 2, 3, 4, 5, 6, 7]]] Option.none =
      Except.ok [[[1, 2, 0, 0, 5, 6, 0]]] ∧
    (∀ b t, b < 1 → t < 1 →
      (rowOf [[[1, 2, 0, 0, 5, 6, 0]]] b t).take msfix2.mgc_offset =
        (rowOf [[[1, 2, 3, 4, 5, 6, 7]]] b t).take msfix2.mgc_offset ∧
      ((rowOf [[[1, 2, 0, 0, 5, 6, 0]]] b t).drop (3 + 1 + 1)).take msfix2.bap_offset =
        ((rowOf [[[1, 2, 3, 4, 5, 6, 7]]] b t).drop (3 + 1 + 1)).take msfix2.bap_offset) :=
  ⟨rfl, by decide, by decide, zeroFilter_widthPres, zeroFilter_widthPres,
   zeroFilter_widthPres, by decide, by decide, by decide,
   C5_offset_preservation msfix2 [[[1, 2, 3, 4, 5, 6, 7]]] [[[1, 2, 0, 0, 5, 6, 0]]]
     Option.none 1 1 7 3 1 1 2 [] rfl (by decide) (by decide) zeroFilter_widthPres
     zeroFilter_widthPres zeroFilter_widthPres (by decide) (by decide) (by decide)⟩
